import Mathlib

set_option maxRecDepth 100000

/-!
Verification development for the astro-join membership core.

The definitions below are a shallow embedding of the admin membership API
(`updateMember`, its helpers, and the CSV import pipeline) together with the
shared email validator.  JavaScript strings are modelled as Lean `String`s
(lists of characters), SQL rows as a Lean structure, the members table as a
`List Member`, and the append-only history table as a `List HistoryEntry`.
`CURRENT_TIMESTAMP` / `new Date()` are modelled by an abstract `Clock` that
provides an opaque tick `now` together with the zero-based month and the
calendar year used for the academic-year expiry computation.
-/

/-! ### JavaScript string primitives -/

/-- Whitespace characters removed by JavaScript `String.prototype.trim`
(restricted to the ASCII whitespace actually occurring in this code base). -/
def wsChar (c : Char) : Bool := c = ' ' || c = '\t' || c = '\n' || c = '\r'

def jsTrimList (cs : List Char) : List Char :=
  ((cs.dropWhile wsChar).reverse.dropWhile wsChar).reverse

/-- Model of JavaScript `s.trim()`. -/
def jsTrim (s : String) : String := String.mk (jsTrimList s.data)

/-- Model of JavaScript `toLowerCase` restricted to ASCII letters plus the
accented capitals that can occur in the French header and label tables. -/
def jsLowerChar (c : Char) : Char :=
  if 'A' ≤ c ∧ c ≤ 'Z' then Char.ofNat (c.toNat + 32)
  else if c = 'É' then 'é' else if c = 'È' then 'è' else if c = 'Ê' then 'ê'
  else if c = 'À' then 'à' else if c = 'Â' then 'â' else if c = 'Î' then 'î'
  else if c = 'Ï' then 'ï' else if c = 'Ô' then 'ô' else if c = 'Ù' then 'ù'
  else if c = 'Û' then 'û' else if c = 'Ü' then 'ü' else if c = 'Ç' then 'ç'
  else c

def jsToLower (s : String) : String := String.mk (s.data.map jsLowerChar)

/-- Split a character list at every occurrence of `sep` (JavaScript
`String.prototype.split` with a single-character separator). -/
def jsSplitChar (sep : Char) : List Char → List (List Char)
  | [] => [[]]
  | c :: rest =>
    let r := jsSplitChar sep rest
    if c = sep then [] :: r
    else
      match r with
      | [] => [[c]]
      | h :: t => (c :: h) :: t

/-- Model of JavaScript `s.split('\n')`. -/
def jsSplitLines (s : String) : List String :=
  (jsSplitChar '\n' s.data).map String.mk

/-- Model of JavaScript `s.indexOf(c)`: index of the first occurrence,
`-1` when absent. -/
def jsIndexOfAux (c : Char) : List Char → Nat → Int
  | [], _ => -1
  | x :: xs, n => if x = c then (n : Int) else jsIndexOfAux c xs (n + 1)

def jsIndexOf (cs : List Char) (c : Char) : Int := jsIndexOfAux c cs 0

/-- Model of JavaScript `s.lastIndexOf(c)`: index of the last occurrence,
`-1` when absent. -/
def jsLastIndexOfAux (c : Char) : List Char → Nat → Int
  | [], _ => -1
  | x :: xs, n =>
    let r := jsLastIndexOfAux c xs (n + 1)
    if r ≥ 0 then r else if x = c then (n : Int) else -1

def jsLastIndexOf (cs : List Char) (c : Char) : Int := jsLastIndexOfAux c cs 0

/-! ### The shared email validator (`isValidEmail`, src/unnamed/part_004 lines 12-17) -/

/-- Embedding of `isValidEmail`:
`if (!email || email.length > 254) return false;`
`const atIndex = email.indexOf('@'); const dotIndex = email.lastIndexOf('.');`
`return atIndex > 0 && dotIndex > atIndex + 1 && dotIndex < email.length - 1 && !email.includes(' ');` -/
def isValidEmail (email : String) : Bool :=
  let cs := email.data
  if cs.length = 0 || cs.length > 254 then false
  else
    let atIndex := jsIndexOf cs '@'
    let dotIndex := jsLastIndexOf cs '.'
    decide (atIndex > 0) && decide (dotIndex > atIndex + 1) &&
      decide (dotIndex < (cs.length : Int) - 1) && !(cs.contains ' ')

/-! ### Status taxonomy (src/unnamed/part_004 lines 66-99) -/

def VALID_STATUSES : List String :=
  ["pending", "active", "honor", "secretary", "treasurer", "president",
   "honorary_president", "vice_president", "rejected", "expired"]

/-- Bureau positions that can only be held by one person.
`honorary_president` is NOT unique. -/
def BUREAU_POSITIONS : List String :=
  ["secretary", "treasurer", "president", "vice_president"]

/-- `STATUS_LABELS[s]`, defaulting to the empty string for unknown keys
(the source only reads labels of valid statuses). -/
def STATUS_LABELS (s : String) : String :=
  (([("pending", "En attente"), ("active", "Membre actif"),
     ("honor", "Membre d\x27honneur"), ("secretary", "Secrétaire"),
     ("treasurer", "Trésorier"), ("president", "Président"),
     ("honorary_president", "Président d\x27honneur"),
     ("vice_president", "Vice-président"), ("rejected", "Refusé"),
     ("expired", "Expiré")] : List (String × String)).lookup s).getD ""

/-- The `activeStatuses` set of `setApprovalDates`:
`new Set(['active', 'honor', ...BUREAU_POSITIONS])`. -/
def ACTIVE_STATUSES : List String := ["active", "honor"] ++ BUREAU_POSITIONS

/-! ### Data model -/

/-- Abstract wall clock: `now` stands for both `CURRENT_TIMESTAMP` and
`new Date().toISOString()`; `month` is the zero-based month of `new Date()`
and `year` the calendar year. -/
structure Clock where
  now : Nat
  month : Nat
  year : Nat
deriving DecidableEq

/-- A row of the `members` table (the columns touched by the core). -/
structure Member where
  id : Nat
  firstName : String
  lastName : String
  email : String
  phone : Option String
  studentId : Option String
  enrollmentNumber : Option String
  enrollmentTrack : String
  telegram : Option String
  discord : Option String
  notes : Option String
  status : String
  approvedAt : Option Nat
  expiresAt : Option String
  updatedAt : Nat
deriving DecidableEq

/-- A row of the append-only `membership_history` table. -/
structure HistoryEntry where
  memberId : Nat
  oldStatus : Option String
  newStatus : String
  reason : String
deriving DecidableEq

/-- The JSON body of a `PUT /api/admin/members/:id` request.  `none` models an
absent key (`body.x === undefined`); present keys carry their string value. -/
structure Body where
  firstName : Option String := none
  lastName : Option String := none
  email : Option String := none
  studentId : Option String := none
  enrollmentTrack : Option String := none
  phone : Option String := none
  telegram : Option String := none
  discord : Option String := none
  enrollmentNumber : Option String := none
  notes : Option String := none
  status : Option String := none
  reason : Option String := none
  approvedAt : Option String := none
  expiresAt : Option String := none
deriving DecidableEq

/-- One `column = ?` entry of the `updates` array built by `updateMember`. -/
inductive FieldUpdate
  | firstNameU (v : String)
  | lastNameU (v : String)
  | emailU (v : String)
  | studentIdU (v : Option String)
  | enrollmentTrackU (v : String)
  | phoneU (v : Option String)
  | telegramU (v : Option String)
  | discordU (v : Option String)
  | enrollmentNumberU (v : Option String)
  | notesU (v : Option String)
  | statusU (v : String)
  | approvedAtNow
  | expiresAtStr (v : String)
  | updatedAtNow
deriving DecidableEq

/-- Applying one SQL `SET` clause to a member row. -/
def applyUpdate (c : Clock) (m : Member) : FieldUpdate → Member
  | .firstNameU v => { m with firstName := v }
  | .lastNameU v => { m with lastName := v }
  | .emailU v => { m with email := v }
  | .studentIdU v => { m with studentId := v }
  | .enrollmentTrackU v => { m with enrollmentTrack := v }
  | .phoneU v => { m with phone := v }
  | .telegramU v => { m with telegram := v }
  | .discordU v => { m with discord := v }
  | .enrollmentNumberU v => { m with enrollmentNumber := v }
  | .notesU v => { m with notes := v }
  | .statusU v => { m with status := v }
  | .approvedAtNow => { m with approvedAt := some c.now }
  | .expiresAtStr v => { m with expiresAt := some v }
  | .updatedAtNow => { m with updatedAt := c.now }

/-- The `v?.trim() || null` transform used for optional text fields. -/
def optTrim (v : String) : Option String :=
  let t := jsTrim v
  if t = "" then none else some t

def onOpt (o : Option String) (f : String → FieldUpdate) : List FieldUpdate :=
  match o with
  | some v => [f v]
  | none => []

/-- Embedding of `buildFieldUpdates` (src/unnamed/part_004 lines 222-242):
each key present in the body contributes one `SET` clause, in source order. -/
def buildFieldUpdates (b : Body) : List FieldUpdate :=
  onOpt b.firstName (fun v => .firstNameU (jsTrim v)) ++
  onOpt b.lastName (fun v => .lastNameU (jsTrim v)) ++
  onOpt b.email (fun v => .emailU (jsTrim (jsToLower v))) ++
  onOpt b.studentId (fun v => .studentIdU (optTrim v)) ++
  onOpt b.enrollmentTrack (fun v => .enrollmentTrackU v) ++
  onOpt b.phone (fun v => .phoneU (optTrim v)) ++
  onOpt b.telegram (fun v => .telegramU (optTrim v)) ++
  onOpt b.discord (fun v => .discordU (optTrim v)) ++
  onOpt b.enrollmentNumber (fun v => .enrollmentNumberU (optTrim v)) ++
  onOpt b.notes (fun v => .notesU (optTrim v))

/-- `UPDATE members SET ... WHERE id = ?`: apply `f` to every row whose id
matches. -/
def updMember (db : List Member) (memberId : Nat) (f : Member → Member) :
    List Member :=
  db.map fun m => if m.id = memberId then f m else m

/-- Apply a list of `SET` clauses to the row with the given id. -/
def applyUpdatesTo (c : Clock) (db : List Member) (memberId : Nat)
    (us : List FieldUpdate) : List Member :=
  updMember db memberId (fun m => us.foldl (applyUpdate c) m)

/-! ### updateMember and its helpers (src/unnamed/part_004 lines 244-379) -/

/-- Outcome of an `updateMember` call, corresponding to the HTTP responses
`success('Member updated successfully')`, `error('Member not found', 404)`,
`error('Invalid status...', 400)`, the bureau conflict message naming the
holder, and `error('No updates provided', 400)`. -/
inductive Outcome
  | success
  | notFound
  | invalidStatus
  | conflict (first last : String)
  | noUpdates
deriving DecidableEq

def Outcome.isConflict : Outcome → Bool
  | .conflict _ _ => true
  | _ => false

structure UpdateResult where
  outcome : Outcome
  db : List Member
  hist : List HistoryEntry
deriving DecidableEq

inductive BureauResult
  | ok (db : List Member) (hist : List HistoryEntry)
  | conflictErr (first last : String)
  | notFoundErr
deriving DecidableEq

/-- Embedding of `handleBureauStatusUpdate` (lines 247-276).  The conditional
`UPDATE ... WHERE id = ? AND NOT EXISTS (SELECT 1 FROM members WHERE status = ?
AND id != ?)` touches the rows with the given id exactly when no other row
currently holds `newStatus`; `meta.changes = 0` triggers the follow-up read
that distinguishes a conflict from a missing member.  On success the status
change is logged to `membership_history`. -/
def handleBureauStatusUpdate (c : Clock) (db : List Member)
    (hist : List HistoryEntry) (memberId : Nat)
    (newStatus currentStatus : String) (reason : Option String) :
    BureauResult :=
  let casOk := (db.any fun m => m.id = memberId) &&
    !(db.any fun m => m.status = newStatus && m.id ≠ memberId)
  if casOk then
    let db1 := updMember db memberId
      (fun m => { m with status := newStatus, updatedAt := c.now })
    let hist1 := hist ++
      [⟨memberId, some currentStatus, newStatus,
        reason.getD "Status updated by admin"⟩]
    .ok db1 hist1
  else
    match db.find? (fun m => m.status = newStatus && m.id ≠ memberId) with
    | some e => .conflictErr e.firstName e.lastName
    | none => .notFoundErr

/-- `now.getMonth() >= 8 ? now.getFullYear() + 1 : now.getFullYear()`. -/
def expiryYear (c : Clock) : Nat := if c.month ≥ 8 then c.year + 1 else c.year

/-- The string bound for `expires_at`, i.e. `` `${year}-08-31` ``. -/
def expiryString (c : Clock) : String := Nat.repr (expiryYear c) ++ "-08-31"

/-- Embedding of `setApprovalDates` (lines 281-291): pushes
`approved_at = CURRENT_TIMESTAMP` and `expires_at = ?` exactly when the new
status is active-like and the current one is not. -/
def setApprovalDates (c : Clock) (newStatus currentStatus : String) :
    List FieldUpdate :=
  if ACTIVE_STATUSES.contains newStatus &&
      !(ACTIVE_STATUSES.contains currentStatus) then
    [.approvedAtNow, .expiresAtStr (expiryString c)]
  else []

/-- Embedding of `logStatusChange` (lines 331-338): append a history entry for
a non-bureau status change where the new status differs from the stored one. -/
def logStatusChange (hist : List HistoryEntry) (memberId : Nat) (b : Body)
    (current : Member) : List HistoryEntry :=
  match b.status with
  | some s =>
    if s ≠ current.status ∧ ¬ BUREAU_POSITIONS.contains s then
      hist ++ [⟨memberId, some current.status, s,
        b.reason.getD "Status updated by admin"⟩]
    else hist
  | none => hist

/-- The tail of `updateMember` (lines 363-374): push
`updated_at = CURRENT_TIMESTAMP`, reject a body with no recognized updates,
otherwise run the combined `UPDATE` and then `logStatusChange`. -/
def finishUpdate (c : Clock) (db : List Member) (hist : List HistoryEntry)
    (memberId : Nat) (b : Body) (current : Member)
    (updates : List FieldUpdate) : UpdateResult :=
  let updates' := updates ++ [.updatedAtNow]
  if updates'.length = 1 then ⟨.noUpdates, db, hist⟩
  else
    let db' := applyUpdatesTo c db memberId updates'
    let hist' := logStatusChange hist memberId b current
    ⟨.success, db', hist'⟩

/-- Embedding of `updateMember` (lines 344-379) together with
`handleStatusChange` (lines 297-326).  Control flow:
load the current row (404 when absent); build the non-status field updates;
on a status key: validate it, route unique bureau roles through the atomic
`handleBureauStatusUpdate` — with the early-return "done" branch that sets the
approval dates only when the body carries no other updates — and push
non-bureau statuses (plus their approval dates) onto the update list;
finally append `updated_at`, reject empty updates, apply, and log. -/
def updateMember (c : Clock) (db : List Member) (hist : List HistoryEntry)
    (memberId : Nat) (b : Body) : UpdateResult :=
  match db.find? (fun m => m.id = memberId) with
  | none => ⟨.notFound, db, hist⟩
  | some current =>
    let updates := buildFieldUpdates b
    match b.status with
    | none => finishUpdate c db hist memberId b current updates
    | some s =>
      if ¬ VALID_STATUSES.contains s then ⟨.invalidStatus, db, hist⟩
      else if BUREAU_POSITIONS.contains s then
        match handleBureauStatusUpdate c db hist memberId s current.status
          b.reason with
        | .conflictErr f l => ⟨.conflict f l, db, hist⟩
        | .notFoundErr => ⟨.notFound, db, hist⟩
        | .ok db1 hist1 =>
          let hasOtherUpdates := b.approvedAt.isSome || b.expiresAt.isSome ||
            b.enrollmentNumber.isSome || b.notes.isSome
          if !hasOtherUpdates && updates = [] then
            let updates2 := setApprovalDates c s current.status
            let db2 := if updates2 ≠ [] then
              applyUpdatesTo c db1 memberId updates2 else db1
            ⟨.success, db2, hist1⟩
          else finishUpdate c db1 hist1 memberId b current updates
      else
        finishUpdate c db hist memberId b current
          (updates ++ [.statusU s] ++ setApprovalDates c s current.status)

/-! ### CSV import (src/unnamed/part_004 lines 566-808) -/

/-- Embedding of `parseCSVLine` (lines 569-586): single pass over the line,
toggling `inQuotes` on `"` and splitting on `,` `\t` `;` outside quotes;
every collected value is trimmed. -/
def parseCSVLine (line : String) : List String :=
  let step := fun (acc : List String × List Char × Bool) (ch : Char) =>
    let (vals, cur, inQ) := acc
    if ch = '"' then (vals, cur, !inQ)
    else if (ch = ',' || ch = '\t' || ch = ';') && !inQ then
      (vals ++ [String.mk (jsTrimList cur)], [], inQ)
    else (vals, cur ++ [ch], inQ)
  let r := line.data.foldl step ([], [], false)
  r.1 ++ [String.mk (jsTrimList r.2.1)]

/-- The label table of `mapStatusFromLabel` (lines 591-623). -/
def STATUS_FROM_LABEL : List (String × String) :=
  [("membre actif", "active"), ("actif", "active"),
   ("membre d\x27honneur", "honor"), ("honneur", "honor"),
   ("secrétaire", "secretary"), ("secretaire", "secretary"),
   ("trésorier", "treasurer"), ("tresorier", "treasurer"),
   ("président", "president"), ("president", "president"),
   ("président d\x27honneur", "honorary_president"),
   ("president d\x27honneur", "honorary_president"),
   ("vice-président", "vice_president"), ("vice-president", "vice_president"),
   ("vice président", "vice_president"), ("vice president", "vice_president"),
   ("en attente", "pending"), ("pending", "pending"),
   ("refusé", "rejected"), ("refuse", "rejected"), ("rejected", "rejected"),
   ("expiré", "expired"), ("expire", "expired"), ("expired", "expired")]

/-- Embedding of `mapStatusFromLabel`: `none` models a `null`/`undefined`
label; a falsy (empty) or unrecognized label maps to `active`. -/
def mapStatusFromLabel (label : Option String) : String :=
  match label with
  | none => "active"
  | some l =>
    if l = "" then "active"
    else (STATUS_FROM_LABEL.lookup (jsTrim (jsToLower l))).getD "active"

/-- The logical CSV fields of `HEADER_MAPPINGS` (lines 626-635). -/
inductive CsvField
  | firstName | lastName | email | phone | studentId
  | enrollmentNumber | enrollmentTrack | status
deriving DecidableEq

/-- First field of `HEADER_MAPPINGS` (in object order) whose alias list
contains the normalized header cell. -/
def fieldOfHeader (h : String) : Option CsvField :=
  if ["prénom", "prenom", "firstname"].contains h then some .firstName
  else if ["nom", "lastname"].contains h then some .lastName
  else if ["email", "mail"].contains h then some .email
  else if ["téléphone", "telephone", "phone", "tel"].contains h then some .phone
  else if ["numéro étudiant", "numero etudiant", "n° étudiant", "student_id",
      "numéro", "numero"].contains h then some .studentId
  else if ["enrollment_number"].contains h then some .enrollmentNumber
  else if ["filière d\x27inscription", "filiere", "track", "enrollment_track",
      "cursus"].contains h then some .enrollmentTrack
  else if ["statut", "status"].contains h then some .status
  else none

/-- `headerMap`: column index per logical field. -/
structure HeaderMap where
  firstName : Option Nat := none
  lastName : Option Nat := none
  email : Option Nat := none
  phone : Option Nat := none
  studentId : Option Nat := none
  enrollmentNumber : Option Nat := none
  enrollmentTrack : Option Nat := none
  status : Option Nat := none
deriving DecidableEq

def HeaderMap.set (hm : HeaderMap) (f : CsvField) (i : Nat) : HeaderMap :=
  match f with
  | .firstName => { hm with firstName := some i }
  | .lastName => { hm with lastName := some i }
  | .email => { hm with email := some i }
  | .phone => { hm with phone := some i }
  | .studentId => { hm with studentId := some i }
  | .enrollmentNumber => { hm with enrollmentNumber := some i }
  | .enrollmentTrack => { hm with enrollmentTrack := some i }
  | .status => { hm with status := some i }

/-- Embedding of `parseCSVHeaders` (lines 640-652): scan the header cells in
order; each recognized (lowercased, trimmed) alias records its column index,
later duplicates overwriting earlier ones. -/
def parseCSVHeaders (raws : List String) : HeaderMap :=
  (raws.enum).foldl
    (fun hm p =>
      match fieldOfHeader (jsTrim (jsToLower p.2)) with
      | some f => hm.set f p.1
      | none => hm)
    {}

/-- The value of one CSV cell as seen by `extractMemberFromRow`:
`absent` models a column missing from the header (JS `null`),
`missing` a row too short to contain the cell (JS `undefined`, which D1
rejects at bind time), and `val` a present (trimmed) cell value —
possibly the empty string. -/
inductive Cell
  | absent
  | missing
  | val (s : String)
deriving DecidableEq

def getCell (values : List String) (idx : Option Nat) : Cell :=
  match idx with
  | none => .absent
  | some i =>
    match values.get? i with
    | none => .missing
    | some s => .val (jsTrim s)

/-- `undefined`/`null` collapse for fields that are only truthiness-tested. -/
def cellToOpt : Cell → Option String
  | .absent => none
  | .missing => none
  | .val s => some s

/-- The SQL value bound for a cell (`null` for an absent column); `missing`
never reaches a bind because `importOrUpdateMember` guards it. -/
def cellSql : Cell → Option String
  | .absent => none
  | .missing => none
  | .val s => some s

/-- The member data extracted from one CSV row
(`extractMemberFromRow`, lines 657-668). -/
structure RowMember where
  firstName : Option String
  lastName : Option String
  email : Option String
  phone : Cell
  studentId : Cell
  enrollmentNumber : Cell
  enrollmentTrack : Cell
  status : String
deriving DecidableEq

def extractMemberFromRow (values : List String) (hm : HeaderMap) : RowMember :=
  { firstName := cellToOpt (getCell values hm.firstName)
    lastName := cellToOpt (getCell values hm.lastName)
    email := (cellToOpt (getCell values hm.email)).map
      (fun s => jsTrim (jsToLower s))
    phone := getCell values hm.phone
    studentId := getCell values hm.studentId
    enrollmentNumber := getCell values hm.enrollmentNumber
    enrollmentTrack :=
      match hm.enrollmentTrack with
      | none => .val "Autre"
      | some i => getCell values (some i)
    status := mapStatusFromLabel (cellToOpt (getCell values hm.status)) }

/-- JS truthiness of the extracted first/last name and email. -/
def optFalsy (o : Option String) : Bool :=
  match o with
  | none => true
  | some s => s = ""

structure ImportStats where
  imported : Nat := 0
  updated : Nat := 0
  skipped : Nat := 0
  errors : List String := []
deriving DecidableEq

/-- Embedding of `validateImportRow` (lines 673-704).  `bim` is the
`bureauInImport` object (role ↦ claiming email), `bmap` the pre-loaded
bureau-holder map.  Returns whether the row passed, the updated claim map,
and the updated stats. -/
def validateImportRow (m : RowMember) (rowIndex : Nat)
    (bim : List (String × String)) (bmap : String → Option Member)
    (stats : ImportStats) : Bool × List (String × String) × ImportStats :=
  if optFalsy m.firstName || optFalsy m.lastName || optFalsy m.email then
    (false, bim, { stats with
      errors := stats.errors ++
        ["Row " ++ Nat.repr rowIndex ++ ": Missing required fields"],
      skipped := stats.skipped + 1 })
  else if !(isValidEmail ((m.email).getD "")) then
    (false, bim, { stats with
      errors := stats.errors ++
        ["Row " ++ Nat.repr rowIndex ++ ": Invalid email format"],
      skipped := stats.skipped + 1 })
  else if BUREAU_POSITIONS.contains m.status then
    if (bim.lookup m.status).isSome then
      (false, bim, { stats with
        errors := stats.errors ++
          ["Row " ++ Nat.repr rowIndex ++ ": Role " ++
            STATUS_LABELS m.status ++ " already assigned in this import"],
        skipped := stats.skipped + 1 })
    else
      match bmap m.status with
      | some existing =>
        if existing.email ≠ (m.email).getD "" then
          (false, bim, { stats with
            errors := stats.errors ++
              ["Row " ++ Nat.repr rowIndex ++ ": Role " ++
                STATUS_LABELS m.status ++ " already held by " ++
                existing.firstName ++ " " ++ existing.lastName],
            skipped := stats.skipped + 1 })
        else
          (true, (m.status, (m.email).getD "") :: bim, stats)
      | none =>
        (true, (m.status, (m.email).getD "") :: bim, stats)
  else (true, bim, stats)

/-- Fresh id for an inserted row (`AUTOINCREMENT`). -/
def nextId (db : List Member) : Nat := (db.map Member.id).foldr Nat.max 0 + 1

/-- The row written by the `UPDATE ... COALESCE` branch of
`importOrUpdateMember` (lines 713-726). -/
def importUpdatedMember (c : Clock) (mem : Member) (m : RowMember) : Member :=
  { mem with
    firstName := (m.firstName).getD ""
    lastName := (m.lastName).getD ""
    phone := match cellSql m.phone with
      | none => mem.phone
      | some s => some s
    studentId := match cellSql m.studentId with
      | none => mem.studentId
      | some s => some s
    enrollmentNumber := match cellSql m.enrollmentNumber with
      | none => mem.enrollmentNumber
      | some s => some s
    enrollmentTrack := match cellSql m.enrollmentTrack with
      | none => mem.enrollmentTrack
      | some s => s
    status := m.status
    updatedAt := c.now }

/-- The row written by the `INSERT` branch of `importOrUpdateMember`
(lines 727-742): `approved_at` is `null` only for `pending` rows, and
`expires_at` only for `pending` or `rejected` rows. -/
def importInsertedMember (c : Clock) (db : List Member) (m : RowMember) :
    Member :=
  { id := nextId db
    firstName := (m.firstName).getD ""
    lastName := (m.lastName).getD ""
    email := (m.email).getD ""
    phone := cellSql m.phone
    studentId := cellSql m.studentId
    enrollmentNumber := cellSql m.enrollmentNumber
    enrollmentTrack := (cellSql m.enrollmentTrack).getD ""
    telegram := none
    discord := none
    notes := none
    status := m.status
    approvedAt := if m.status = "pending" then none else some c.now
    expiresAt := if m.status ≠ "pending" ∧ m.status ≠ "rejected" then
      some (expiryString c) else none
    updatedAt := c.now }

inductive ImportWriteResult
  | updatedRow (db : List Member)
  | insertedRow (db : List Member)
  | writeErr (msg : String)
deriving DecidableEq

/-- Embedding of `importOrUpdateMember` (lines 709-743).  Binding a JS
`undefined` (a `missing` cell) makes the D1 statement throw, which the import
loop catches as a row-level error. -/
def importOrUpdateMember (c : Clock) (db : List Member) (m : RowMember) :
    ImportWriteResult :=
  match db.find? (fun mem => mem.email = (m.email).getD "") with
  | some existing =>
    if m.phone = .missing || m.studentId = .missing ||
        m.enrollmentNumber = .missing || m.enrollmentTrack = .missing then
      .writeErr "D1_TYPE_ERROR"
    else
      .updatedRow (db.map fun mem =>
        if mem.id = existing.id then importUpdatedMember c mem m else mem)
  | none =>
    if m.phone = .missing || m.studentId = .missing ||
        m.enrollmentNumber = .missing || m.enrollmentTrack = .missing then
      .writeErr "D1_TYPE_ERROR"
    else
      .insertedRow (db ++ [importInsertedMember c db m])

structure ImportState where
  db : List Member
  bim : List (String × String)
  stats : ImportStats
deriving DecidableEq

/-- One iteration of the import loop (lines 783-797): skip blank lines,
extract and validate the row, then write it, converting a storage failure
into a row-level error. -/
def processRow (c : Clock) (bmap : String → Option Member) (hm : HeaderMap)
    (st : ImportState) (p : Nat × String) : ImportState :=
  let line := jsTrim p.2
  if line = "" then st
  else
    let row := extractMemberFromRow (parseCSVLine line) hm
    match validateImportRow row (p.1 + 2) st.bim bmap st.stats with
    | (false, bim', stats') => ⟨st.db, bim', stats'⟩
    | (true, bim', stats') =>
      match importOrUpdateMember c st.db row with
      | .updatedRow db' =>
        ⟨db', bim', { stats' with updated := stats'.updated + 1 }⟩
      | .insertedRow db' =>
        ⟨db', bim', { stats' with imported := stats'.imported + 1 }⟩
      | .writeErr msg =>
        ⟨st.db, bim', { stats' with
          errors := stats'.errors ++
            ["Row " ++ Nat.repr (p.1 + 2) ++ ": " ++ msg],
          skipped := stats'.skipped + 1 }⟩

/-- The pre-loaded bureau map (lines 773-781): for each unique bureau role,
the last row of the members table holding it (`Map.set` keeps the last). -/
def bureauLookup (db : List Member) (R : String) : Option Member :=
  if BUREAU_POSITIONS.contains R then
    (db.filter (fun m => m.status = R)).getLast?
  else none

/-- Result of an `importCSV` call: either a whole-import `error(msg, 400)`
or the final state of the sequential row loop. -/
inductive ImportOutcome
  | failed (msg : String)
  | done (st : ImportState)
deriving DecidableEq

def ImportOutcome.state : ImportOutcome → ImportState
  | .failed _ => ⟨[], [], {}⟩
  | .done st => st

/-- Embedding of `importCSV` (lines 750-808) up to the JSON response: the
whole-import failure modes and the sequential row loop.  Rows are numbered
from 2 as in the source (`i + 1` with `i` starting at 1). -/
def importCSV (c : Clock) (db : List Member) (csvData : String) :
    ImportOutcome :=
  if csvData = "" then .failed "CSV data is required"
  else
    let lines := jsSplitLines (jsTrim csvData)
    if lines.length < 2 then
      .failed "CSV must contain at least a header and one data row"
    else
      let hm := parseCSVHeaders (parseCSVLine (lines.headD ""))
      if hm.firstName = none || hm.lastName = none || hm.email = none then
        .failed "CSV must have Prénom, Nom, and Email columns"
      else
        .done ((lines.tail.enum).foldl (processRow c (bureauLookup db) hm)
          ⟨db, [], {}⟩)

/-! ### Interleaving machine for two concurrent bureau assignments

Each `PUT /api/admin/members/:id` request with body `{status: R}` (`R` a
unique bureau role) performs a sequence of atomic storage operations, in this
order in the source: the `SELECT` of the current row (line 349), the
conditional CAS `UPDATE` (lines 248-256), then on success the history
`INSERT` (lines 270-273) and the approval-date `UPDATE` of the done-branch
(lines 311-317), or on failure the follow-up holder `SELECT` (lines 259-261).
The machine below interleaves two such requests at storage-operation
granularity; the storage layer itself evaluates each operation atomically. -/

inductive RPC
  | p0   -- about to SELECT the current row
  | p1   -- about to run the conditional CAS UPDATE
  | p2   -- CAS succeeded; about to INSERT the history entry
  | p2b  -- about to run the approval-date UPDATE of the done-branch
  | p3   -- CAS affected zero rows; about to SELECT the other holder
  | pDone
deriving DecidableEq

structure ReqState where
  pc : RPC
  saved : String
  res : Option Outcome
deriving DecidableEq

/-- One atomic storage step of a `{status: R}` request for member `X`. -/
def stepReq (c : Clock) (R : String) (X : Nat) (db : List Member)
    (hist : List HistoryEntry) (r : ReqState) :
    List Member × List HistoryEntry × ReqState :=
  match r.pc with
  | .p0 =>
    match db.find? (fun m => m.id = X) with
    | none => (db, hist, { r with pc := .pDone, res := some .notFound })
    | some m => (db, hist, { r with pc := .p1, saved := m.status })
  | .p1 =>
    if (db.any fun m => m.id = X) &&
        !(db.any fun m => m.status = R && m.id ≠ X) then
      (updMember db X (fun m => { m with status := R, updatedAt := c.now }),
        hist, { r with pc := .p2 })
    else (db, hist, { r with pc := .p3 })
  | .p2 =>
    (db, hist ++ [⟨X, some r.saved, R, "Status updated by admin"⟩],
      { r with pc := .p2b })
  | .p2b =>
    let us := setApprovalDates c R r.saved
    let db' := if us ≠ [] then applyUpdatesTo c db X us else db
    (db', hist, { r with pc := .pDone, res := some .success })
  | .p3 =>
    match db.find? (fun m => m.status = R && m.id ≠ X) with
    | some e =>
      (db, hist,
        { r with pc := .pDone, res := some (.conflict e.firstName e.lastName) })
    | none => (db, hist, { r with pc := .pDone, res := some .notFound })
  | .pDone => (db, hist, r)

structure Sys where
  db : List Member
  hist : List HistoryEntry
  ra : ReqState
  rb : ReqState
deriving DecidableEq

/-- Scheduler step: `true` lets request A (member `X`) take its next atomic
operation, `false` request B (member `Y`). -/
def stepSys (c : Clock) (R : String) (X Y : Nat) (s : Sys) (choice : Bool) :
    Sys :=
  if choice then
    let (db', hist', ra') := stepReq c R X s.db s.hist s.ra
    { s with db := db', hist := hist', ra := ra' }
  else
    let (db', hist', rb') := stepReq c R Y s.db s.hist s.rb
    { s with db := db', hist := hist', rb := rb' }

def initSys (db : List Member) : Sys :=
  ⟨db, [], ⟨.p0, "", none⟩, ⟨.p0, "", none⟩⟩

def runSys (c : Clock) (R : String) (X Y : Nat) (db : List Member)
    (sched : List Bool) : Sys :=
  sched.foldl (stepSys c R X Y) (initSys db)

/-! ### Spec-side email predicates (for claim C6) -/

/-- The claim's characterization of the email validator, read off the spec
sentence: non-empty, at most 254 characters, a meaningful first `@` with a
non-empty local part before it, a domain after the `@` containing a `.` that
is neither at the domain's start nor at its end, and no embedded space. -/
def emailClaimSpec (email : String) : Bool :=
  let cs := email.data
  (decide (cs ≠ [])) && (decide (cs.length ≤ 254)) &&
  (match cs.findIdx? (fun x => x = '@') with
   | none => false
   | some i =>
     decide (0 < i) &&
     (let dom := cs.drop (i + 1)
      (List.range dom.length).any fun j =>
        (dom.getD j ' ' = '.') && decide (0 < j) &&
          decide (j + 1 < dom.length))) &&
  !(cs.contains ' ')

/-- The amended characterization: identical to `emailClaimSpec` except that
the dot requirement is evaluated on the domain's LAST dot — the last `.` of
the domain must be neither at the domain's start nor at its end (so a domain
ending in `.` is rejected even when it also contains an interior dot). -/
def emailAmendedSpec (email : String) : Bool :=
  let cs := email.data
  (decide (cs ≠ [])) && (decide (cs.length ≤ 254)) &&
  (match cs.findIdx? (fun x => x = '@') with
   | none => false
   | some i =>
     decide (0 < i) &&
     (let dom := cs.drop (i + 1)
      match jsLastIndexOf dom '.' with
      | j => decide (0 < j) && decide (j + 1 < (dom.length : Int)))) &&
  !(cs.contains ' ')

/-! ### Reachable-state invariants -/

/-- Ids are unique across the members table (`AUTOINCREMENT` primary key). -/
def IdUnique (db : List Member) : Prop :=
  ∀ m1 ∈ db, ∀ m2 ∈ db, m1.id = m2.id → m1 = m2

/-- Emails are unique across the members table (`email TEXT NOT NULL UNIQUE`). -/
def EmailUnique (db : List Member) : Prop :=
  ∀ m1 ∈ db, ∀ m2 ∈ db, m1.email = m2.email → m1 = m2

/-- The bureau-uniqueness invariant: each of the four unique bureau roles is
held by at most one member. -/
def RoleUnique (db : List Member) : Prop :=
  ∀ R ∈ BUREAU_POSITIONS, ∀ m1 ∈ db, ∀ m2 ∈ db,
    m1.status = R → m2.status = R → m1 = m2

instance (db : List Member) : Decidable (IdUnique db) := by
  unfold IdUnique; infer_instance

instance (db : List Member) : Decidable (EmailUnique db) := by
  unfold EmailUnique; infer_instance

instance (db : List Member) : Decidable (RoleUnique db) := by
  unfold RoleUnique; infer_instance

/-- Every current holder of a bureau role is pinned to one email — by the
in-import claim map when the role was claimed in this import, and by the
pre-loaded holder map otherwise. -/
def RoleInv (bmap : String → Option Member) (db : List Member)
    (bim : List (String × String)) : Prop :=
  ∀ R ∈ BUREAU_POSITIONS,
    match bim.lookup R with
    | some e => ∀ m ∈ db, m.status = R → m.email = e
    | none => ∀ m ∈ db, m.status = R →
        ∃ m0, bmap R = some m0 ∧ m.email = m0.email

/-- The invariant carried through the import loop. -/
def ImportInv (bmap : String → Option Member) (st : ImportState) : Prop :=
  IdUnique st.db ∧ EmailUnique st.db ∧ RoleInv bmap st.db st.bim

/-- The exact condition under which a successful `updateMember` writes
`approved_at`/`expires_at`, read off the source: the patch carries a status
that is in the code's active-like set while the stored status is not, and —
when that status is a unique bureau role — the body carries no other
recognized updates (the done-branch guard of `handleStatusChange`). -/
def approvalTrigger (b : Body) (current : Member) : Bool :=
  match b.status with
  | none => false
  | some s =>
    ACTIVE_STATUSES.contains s && !(ACTIVE_STATUSES.contains current.status) &&
      (!(BUREAU_POSITIONS.contains s) ||
        (!(b.approvedAt.isSome || b.expiresAt.isSome ||
            b.enrollmentNumber.isSome || b.notes.isSome) &&
          decide (buildFieldUpdates b = [])))

/-! ### The interleaving invariant for claim C2 -/

/-- A request that has (or will surely) come out of the CAS as the winner. -/
def ReqWin (r : ReqState) : Prop :=
  r.pc = .p2 ∨ r.pc = .p2b ∨ (r.pc = .pDone ∧ r.res = some .success)

/-- A request whose CAS affected zero rows. -/
def ReqLose (r : ReqState) : Prop :=
  r.pc = .p3 ∨ (r.pc = .pDone ∧ (r.res.map Outcome.isConflict) = some true)

instance (r : ReqState) : Decidable (ReqWin r) := by
  unfold ReqWin; infer_instance

instance (r : ReqState) : Decidable (ReqLose r) := by
  unfold ReqLose; infer_instance

/-- The inductive invariant of the two-request interleaving: rows for `X` and
`Y` exist, third parties never hold `R`, each target row holds `R` exactly
when its request has won the CAS, at most one request wins, and a loser
implies the other side won (which is what makes the follow-up read find a
holder and report a Conflict rather than a missing member). -/
def SysInv (R : String) (X Y : Nat) (s : Sys) : Prop :=
  (∃ m ∈ s.db, m.id = X) ∧ (∃ m ∈ s.db, m.id = Y) ∧
  (∀ m ∈ s.db, m.id ≠ X → m.id ≠ Y → m.status ≠ R) ∧
  (∀ m ∈ s.db, m.id = X → (m.status = R ↔ ReqWin s.ra)) ∧
  (∀ m ∈ s.db, m.id = Y → (m.status = R ↔ ReqWin s.rb)) ∧
  ¬(ReqWin s.ra ∧ ReqWin s.rb) ∧
  (ReqLose s.ra → ReqWin s.rb) ∧
  (ReqLose s.rb → ReqWin s.ra) ∧
  (s.ra.pc = .pDone → ReqWin s.ra ∨ ReqLose s.ra) ∧
  (s.rb.pc = .pDone → ReqWin s.rb ∨ ReqLose s.rb)

/-- The index of the last occurrence of `c`, as an option. -/
def lastIdx (c : Char) : List Char → Option Nat
  | [] => none
  | x :: xs =>
    match lastIdx c xs with
    | some k => some (k + 1)
    | none => if x = c then some 0 else none

/-! ### Concrete fixtures for witnesses and counterexamples -/

def mw2X : Member :=
  ⟨1, "Ax", "Bx", "x@t.cc", none, none, none, "T", none, none, none,
    "active", none, none, 0⟩

def mw2Y : Member :=
  ⟨2, "Ay", "By", "y@t.cc", none, none, none, "T", none, none, none,
    "pending", none, none, 0⟩

def mw3 : Member :=
  ⟨1, "T", "U", "t@u.cc", none, none, none, "T", none, none, none,
    "treasurer", some 3, some "2025-08-31", 0⟩

def mw4 : Member :=
  ⟨1, "P", "Q", "p@q.cc", none, none, none, "T", none, none, none,
    "pending", none, none, 0⟩

def bw4 : Body := { status := some "active" }

def c4res : Member := (updateMember ⟨100, 9, 2024⟩ [mw4] [] 1 bw4).db.headD mw4

def mw7 : RowMember :=
  ⟨some "Jean", some "Dupont", some "a@b.cc", .absent, .absent, .absent,
    .val "Autre", "secretary"⟩

def mw8mem : Member :=
  ⟨1, "A", "B", "a@b.cc", some "0612345678", none, none, "T", none, none,
    none, "active", some 3, some "2025-08-31", 0⟩

def hm8 : HeaderMap := parseCSVHeaders (parseCSVLine "Prénom,Nom,Email,Téléphone")

def row8 : RowMember :=
  extractMemberFromRow (parseCSVLine "Jean,Dupont,a@b.cc,") hm8

def hm9 : HeaderMap := parseCSVHeaders (parseCSVLine "Prénom,Nom,Email,Statut")

def row9 : RowMember :=
  extractMemberFromRow (parseCSVLine "Jean,Dupont,x@y.zz,Expiré") hm9

/-! ### Generic lemmas about the embedded operations -/

theorem applyUpdate_id (c : Clock) (m : Member) (u : FieldUpdate) :
    (applyUpdate c m u).id = m.id := by
  cases u <;> rfl

theorem foldl_applyUpdate_id (c : Clock) (us : List FieldUpdate) (m : Member) :
    (us.foldl (applyUpdate c) m).id = m.id := by
  induction us generalizing m with
  | nil => rfl
  | cons u t ih =>
    simp only [List.foldl_cons]
    rw [ih, applyUpdate_id]

theorem applyUpdate_email (c : Clock) (m : Member) (u : FieldUpdate)
    (h : ∀ v, u ≠ FieldUpdate.emailU v) : (applyUpdate c m u).email = m.email := by
  cases u <;> first | rfl | exact absurd rfl (h _)

theorem applyUpdate_status (c : Clock) (m : Member) (u : FieldUpdate)
    (h : ∀ v, u ≠ FieldUpdate.statusU v) :
    (applyUpdate c m u).status = m.status := by
  cases u <;> first | rfl | exact absurd rfl (h _)

theorem foldl_applyUpdate_status (c : Clock) (us : List FieldUpdate)
    (m : Member) (h : ∀ u ∈ us, ∀ v, u ≠ FieldUpdate.statusU v) :
    (us.foldl (applyUpdate c) m).status = m.status := by
  induction us generalizing m with
  | nil => rfl
  | cons u t ih =>
    simp only [List.foldl_cons]
    rw [ih _ (fun u hu => h u (List.mem_cons_of_mem _ hu)),
      applyUpdate_status c m u (h u (List.mem_cons_self _ _))]

/-- The status after a list of `SET` clauses whose only `status = ?` clauses
set `s` is either the old status or `s`. -/
theorem foldl_applyUpdate_status_subset (c : Clock) (us : List FieldUpdate)
    (m : Member) (s : String)
    (h : ∀ u ∈ us, ∀ v, u = FieldUpdate.statusU v → v = s) :
    (us.foldl (applyUpdate c) m).status = m.status ∨
      (us.foldl (applyUpdate c) m).status = s := by
  induction us generalizing m with
  | nil => exact Or.inl rfl
  | cons u t ih =>
    simp only [List.foldl_cons]
    rcases ih (applyUpdate c m u)
        (fun u hu => h u (List.mem_cons_of_mem _ hu)) with h1 | h1
    · by_cases hcase : ∃ v, u = FieldUpdate.statusU v
      · obtain ⟨v, rfl⟩ := hcase
        have hv : v = s := h _ (List.mem_cons_self _ _) v rfl
        right
        rw [h1, ← hv]
        rfl
      · push_neg at hcase
        left
        rw [h1, applyUpdate_status c m u hcase]
    · exact Or.inr h1

theorem onOpt_mem (o : Option String) (f : String → FieldUpdate)
    (u : FieldUpdate) (hu : u ∈ onOpt o f) : ∃ x, u = f x := by
  cases o with
  | none => cases hu
  | some v =>
    simp only [onOpt, List.mem_singleton] at hu
    exact ⟨v, hu⟩

/-- `buildFieldUpdates` never produces a `status = ?` clause. -/
theorem buildFieldUpdates_no_statusU (b : Body) (u : FieldUpdate)
    (hu : u ∈ buildFieldUpdates b) : ∀ v, u ≠ FieldUpdate.statusU v := by
  unfold buildFieldUpdates at hu
  simp only [List.mem_append] at hu
  rcases hu with ((((((((hu | hu) | hu) | hu) | hu) | hu) | hu) | hu) | hu) | hu <;>
    · obtain ⟨x, rfl⟩ := onOpt_mem _ _ _ hu
      intro v
      simp

/-- `setApprovalDates` never produces a `status = ?` clause. -/
theorem setApprovalDates_no_statusU (c : Clock) (a b2 : String)
    (u : FieldUpdate) (hu : u ∈ setApprovalDates c a b2) :
    ∀ v, u ≠ FieldUpdate.statusU v := by
  unfold setApprovalDates at hu
  split at hu
  · simp only [List.mem_cons, List.mem_singleton] at hu
    rcases hu with rfl | rfl | h
    · intro v; simp
    · intro v; simp
    · cases h
  · cases hu

/-! ### Preservation of the uniqueness invariants -/

/-- If a row transformation can only keep a row's status or set it to a
non-bureau status `s`, it preserves bureau-role uniqueness. -/
theorem roleUnique_map (db : List Member) (g : Member → Member) (s : String)
    (hs : s ∉ BUREAU_POSITIONS)
    (hg : ∀ m, (g m).status = m.status ∨ (g m).status = s)
    (h : RoleUnique db) : RoleUnique (db.map g) := by
  intro R hR m1' h1' m2' h2' hs1 hs2
  obtain ⟨m1, hm1, rfl⟩ := List.mem_map.mp h1'
  obtain ⟨m2, hm2, rfl⟩ := List.mem_map.mp h2'
  have hst1 : m1.status = R := by
    rcases hg m1 with hh | hh
    · rw [← hh]; exact hs1
    · exact absurd (hh ▸ hs1 ▸ hR) hs
  have hst2 : m2.status = R := by
    rcases hg m2 with hh | hh
    · rw [← hh]; exact hs2
    · exact absurd (hh ▸ hs2 ▸ hR) hs
  rw [h R hR m1 hm1 m2 hm2 hst1 hst2]

/-- A guarded status write (the CAS): setting member `X` to status `s` when
no other row holds `s` preserves bureau-role uniqueness. -/
theorem roleUnique_updMember_guard (db : List Member) (X : Nat) (s : String)
    (t : Nat) (hid : IdUnique db)
    (hg : ∀ m ∈ db, m.status = s → m.id = X)
    (h : RoleUnique db) :
    RoleUnique (updMember db X
      (fun m => { m with status := s, updatedAt := t })) := by
  intro R hR m1' h1' m2' h2' hs1 hs2
  obtain ⟨m1, hm1, rfl⟩ := List.mem_map.mp h1'
  obtain ⟨m2, hm2, rfl⟩ := List.mem_map.mp h2'
  by_cases hx1 : m1.id = X <;> by_cases hx2 : m2.id = X
  · rw [hid m1 hm1 m2 hm2 (hx1.trans hx2.symm)]
  · simp only [hx1, if_true, hx2, if_false] at hs1 hs2 ⊢
    exact absurd (hg m2 hm2 (hs2.trans (hs1.symm))) hx2
  · simp only [hx1, if_false, hx2, if_true] at hs1 hs2 ⊢
    exact absurd (hg m1 hm1 (hs1.trans (hs2.symm))) hx1
  · simp only [hx1, hx2, if_false] at hs1 hs2 ⊢
    rw [h R hR m1 hm1 m2 hm2 hs1 hs2]

theorem find_id_unique (db : List Member) (m : Member) (X : Nat)
    (hid : IdUnique db) (hm : m ∈ db) (hmx : m.id = X) :
    db.find? (fun x => x.id = X) = some m := by
  have hsome : (db.find? (fun x => decide (x.id = X))).isSome := by
    rw [List.find?_isSome]
    exact ⟨m, hm, by simp [hmx]⟩
  rcases Option.isSome_iff_exists.mp hsome with ⟨m0, hm0⟩
  have h1 : m0.id = X := by
    have := List.find?_some hm0
    simpa using this
  have h2 : m0 ∈ db := List.mem_of_find?_eq_some hm0
  have : m0 = m := hid m0 h2 m hm (h1.trans hmx.symm)
  simpa [this] using hm0

theorem idUnique_map (db : List Member) (g : Member → Member)
    (hg : ∀ m, (g m).id = m.id) (h : IdUnique db) : IdUnique (db.map g) := by
  intro m1' h1' m2' h2' heq
  obtain ⟨m1, hm1, rfl⟩ := List.mem_map.mp h1'
  obtain ⟨m2, hm2, rfl⟩ := List.mem_map.mp h2'
  rw [h m1 hm1 m2 hm2 (by rw [← hg m1, ← hg m2]; exact heq)]

theorem emailUnique_map (db : List Member) (g : Member → Member)
    (hg : ∀ m, (g m).email = m.email) (h : EmailUnique db) :
    EmailUnique (db.map g) := by
  intro m1' h1' m2' h2' heq
  obtain ⟨m1, hm1, rfl⟩ := List.mem_map.mp h1'
  obtain ⟨m2, hm2, rfl⟩ := List.mem_map.mp h2'
  rw [h m1 hm1 m2 hm2 (by rw [← hg m1, ← hg m2]; exact heq)]

theorem foldr_max_mem_le (l : List Nat) (x : Nat) (hx : x ∈ l) :
    x ≤ l.foldr Nat.max 0 := by
  induction l with
  | nil => cases hx
  | cons a t ih =>
    rcases List.mem_cons.mp hx with rfl | h
    · exact Nat.le_max_left _ _
    · exact Nat.le_trans (ih h) (Nat.le_max_right _ _)

/-- `AUTOINCREMENT` freshness: every existing id is below the next id. -/
theorem nextId_fresh (db : List Member) (m : Member) (hm : m ∈ db) :
    m.id < nextId db := by
  have : m.id ∈ db.map Member.id := List.mem_map_of_mem _ hm
  exact Nat.lt_succ_of_le (foldr_max_mem_le _ _ this)

theorem idUnique_append (db : List Member) (mNew : Member) (h : IdUnique db)
    (hfresh : ∀ m ∈ db, m.id ≠ mNew.id) : IdUnique (db ++ [mNew]) := by
  intro m1 h1 m2 h2 heq
  simp only [List.mem_append, List.mem_singleton] at h1 h2
  rcases h1 with h1 | rfl <;> rcases h2 with h2 | rfl
  · exact h m1 h1 m2 h2 heq
  · exact absurd heq (hfresh m1 h1)
  · exact absurd heq.symm (hfresh m2 h2)
  · rfl

theorem emailUnique_append (db : List Member) (mNew : Member)
    (h : EmailUnique db) (hfresh : ∀ m ∈ db, m.email ≠ mNew.email) :
    EmailUnique (db ++ [mNew]) := by
  intro m1 h1 m2 h2 heq
  simp only [List.mem_append, List.mem_singleton] at h1 h2
  rcases h1 with h1 | rfl <;> rcases h2 with h2 | rfl
  · exact h m1 h1 m2 h2 heq
  · exact absurd heq (hfresh m1 h1)
  · exact absurd heq.symm (hfresh m2 h2)
  · rfl

theorem roleUnique_append (db : List Member) (mNew : Member)
    (h : RoleUnique db) (s : String) (hstat : mNew.status = s)
    (hg : ∀ m ∈ db, m.status = s → False) :
    RoleUnique (db ++ [mNew]) := by
  intro R hR m1 h1 m2 h2 hs1 hs2
  simp only [List.mem_append, List.mem_singleton] at h1 h2
  rcases h1 with h1 | rfl <;> rcases h2 with h2 | rfl
  · exact h R hR m1 h1 m2 h2 hs1 hs2
  · exact absurd (hs1.trans (hs2.symm.trans hstat)) (hg m1 h1)
  · exact absurd (hs2.trans (hs1.symm.trans hstat)) (hg m2 h2)
  · rfl

/-- Applying status-free `SET` clauses to one row preserves role uniqueness. -/
theorem roleUnique_applyUpdatesTo (c : Clock) (db : List Member) (X : Nat)
    (us : List FieldUpdate)
    (hus : ∀ u ∈ us, ∀ v, u ≠ FieldUpdate.statusU v)
    (h : RoleUnique db) : RoleUnique (applyUpdatesTo c db X us) := by
  refine roleUnique_map db _ "" (by decide) (fun m => Or.inl ?_) h
  by_cases hx : m.id = X
  · simp only [hx, if_true]
    exact foldl_applyUpdate_status c us m hus
  · simp only [hx, if_false]

theorem roleUnique_applyUpdatesTo_subset (c : Clock) (db : List Member)
    (X : Nat) (us : List FieldUpdate) (s : String)
    (hs : s ∉ BUREAU_POSITIONS)
    (hus : ∀ u ∈ us, ∀ v, u = FieldUpdate.statusU v → v = s)
    (h : RoleUnique db) : RoleUnique (applyUpdatesTo c db X us) := by
  refine roleUnique_map db _ s hs (fun m => ?_) h
  by_cases hx : m.id = X
  · simp only [hx, if_true]
    exact foldl_applyUpdate_status_subset c us m s hus
  · simp [hx]

theorem finishUpdate_roleUnique (c : Clock) (db : List Member)
    (hist : List HistoryEntry) (X : Nat) (b : Body) (current : Member)
    (us : List FieldUpdate) (s : String) (hs : s ∉ BUREAU_POSITIONS)
    (hus : ∀ u ∈ us, ∀ v, u = FieldUpdate.statusU v → v = s)
    (h : RoleUnique db) :
    RoleUnique (finishUpdate c db hist X b current us).db := by
  simp only [finishUpdate]
  split
  · exact h
  · refine roleUnique_applyUpdatesTo_subset c db X _ s hs ?_ h
    intro u hu v huv
    rcases List.mem_append.mp hu with hu | hu
    · exact hus u hu v huv
    · rw [List.mem_singleton.mp hu] at huv
      cases huv

/-- The CAS guard of `handleBureauStatusUpdate` implies that after a
successful conditional update, bureau-role uniqueness still holds. -/
theorem handleBureau_ok_roleUnique (c : Clock) (db : List Member)
    (hist : List HistoryEntry) (X : Nat) (s cur : String) (r : Option String)
    (db1 : List Member) (hist1 : List HistoryEntry)
    (hid : IdUnique db) (h : RoleUnique db)
    (hok : handleBureauStatusUpdate c db hist X s cur r =
      .ok db1 hist1) : RoleUnique db1 := by
  simp only [handleBureauStatusUpdate] at hok
  split at hok
  · rename_i hcas
    cases hok
    refine roleUnique_updMember_guard db X s c.now hid ?_ h
    intro m hm hms
    have h2 : (db.any fun m => m.status = s && m.id ≠ X) = false := by
      cases hB : (db.any fun m => m.status = s && m.id ≠ X) with
      | false => rfl
      | true =>
        rw [hB] at hcas
        simp at hcas
    have := List.any_eq_false.mp h2 m hm
    simp only [Bool.and_eq_true, decide_eq_true_eq] at this
    by_contra hx
    exact this ⟨hms, hx⟩
  · split at hok <;> cases hok

/-- Part (a) of the uniqueness invariant: `updateMember` preserves it for
every request body. -/
theorem updateMember_roleUnique (c : Clock) (db : List Member)
    (hist : List HistoryEntry) (X : Nat) (b : Body)
    (hid : IdUnique db) (h : RoleUnique db) :
    RoleUnique (updateMember c db hist X b).db := by
  unfold updateMember
  cases hfind : db.find? (fun m => m.id = X) with
  | none => exact h
  | some current =>
    dsimp only
    cases hbs : b.status with
    | none =>
      exact finishUpdate_roleUnique c db hist X b current _ "" (by decide)
        (fun u hu v huv => absurd huv (buildFieldUpdates_no_statusU b u hu v)) h
    | some s =>
      dsimp only
      by_cases hval : ¬ VALID_STATUSES.contains s
      · rw [if_pos hval]
        exact h
      · rw [if_neg hval]
        by_cases hbur : s ∈ BUREAU_POSITIONS
        · rw [if_pos (by simpa using hbur)]
          cases hres : handleBureauStatusUpdate c db hist X s current.status
              b.reason with
          | conflictErr f l => exact h
          | notFoundErr => exact h
          | ok db1 hist1 =>
            have h1 : RoleUnique db1 :=
              handleBureau_ok_roleUnique c db hist X s current.status b.reason
                db1 hist1 hid h hres
            dsimp only
            split
            · split
              · exact roleUnique_applyUpdatesTo c db1 X _
                  (setApprovalDates_no_statusU c s current.status) h1
              · exact h1
            · exact finishUpdate_roleUnique c db1 hist1 X b current _ ""
                (by decide) (fun u hu v huv =>
                  absurd huv (buildFieldUpdates_no_statusU b u hu v)) h1
        · rw [if_neg (by simpa using hbur)]
          refine finishUpdate_roleUnique c db hist X b current _ s hbur ?_ h
          intro u hu v huv
          rcases List.mem_append.mp hu with hu | hu
          · rcases List.mem_append.mp hu with hu | hu
            · exact absurd huv (buildFieldUpdates_no_statusU b u hu v)
            · rw [List.mem_singleton.mp hu] at huv
              injection huv with hv
              exact hv.symm
          · exact absurd huv (setApprovalDates_no_statusU c s current.status u hu v)

/-! ### The import loop invariant -/

theorem getLast?_mem_of_ne_nil {α : Type} (l : List α) (h : l ≠ []) :
    ∃ a, l.getLast? = some a ∧ a ∈ l := by
  induction l with
  | nil => exact absurd rfl h
  | cons x t ih =>
    cases ht : t with
    | nil => exact ⟨x, rfl, List.mem_singleton.mpr rfl⟩
    | cons y u =>
      subst ht
      obtain ⟨a, ha, hmem⟩ := ih (by simp)
      exact ⟨a, by rw [List.getLast?_cons_cons]; exact ha,
        List.mem_cons_of_mem _ hmem⟩

theorem importInv_roleUnique (bmap : String → Option Member)
    (st : ImportState) (h : ImportInv bmap st) : RoleUnique st.db := by
  obtain ⟨hid, hem, hrole⟩ := h
  intro R hR m1 h1 m2 h2 hs1 hs2
  have := hrole R hR
  cases hb : st.bim.lookup R with
  | some e =>
    rw [hb] at this
    exact hem m1 h1 m2 h2 ((this m1 h1 hs1).trans (this m2 h2 hs2).symm)
  | none =>
    rw [hb] at this
    obtain ⟨m0, hm0, he1⟩ := this m1 h1 hs1
    obtain ⟨m0', hm0', he2⟩ := this m2 h2 hs2
    have heq : m0 = m0' := Option.some_injective _ (hm0.symm.trans hm0')
    have h3 : m0.email = m0'.email := by rw [heq]
    exact hem m1 h1 m2 h2 (he1.trans (h3.trans he2.symm))

theorem importInv_init (db : List Member) (hid : IdUnique db)
    (hem : EmailUnique db) (h : RoleUnique db) :
    ImportInv (bureauLookup db) ⟨db, [], {}⟩ := by
  refine ⟨hid, hem, ?_⟩
  intro R hR
  simp only [List.lookup_nil]
  intro m hm hms
  have hne : db.filter (fun x => x.status = R) ≠ [] := by
    intro hnil
    have : m ∈ db.filter (fun x => x.status = R) :=
      List.mem_filter.mpr ⟨hm, by simp [hms]⟩
    rw [hnil] at this
    cases this
  obtain ⟨m0, hlast, hmem⟩ := getLast?_mem_of_ne_nil _ hne
  obtain ⟨hm0db, hm0s⟩ := List.mem_filter.mp hmem
  have hm0R : m0.status = R := by simpa using hm0s
  refine ⟨m0, ?_, ?_⟩
  · unfold bureauLookup
    rw [if_pos (by simpa using hR)]
    exact hlast
  · rw [h R hR m hm m0 hm0db hms hm0R]

theorem validate_fail_bim (m : RowMember) (i : Nat)
    (bim : List (String × String)) (bmap : String → Option Member)
    (stats : ImportStats) (bim2 : List (String × String))
    (stats2 : ImportStats)
    (h : validateImportRow m i bim bmap stats = (false, bim2, stats2)) :
    bim2 = bim := by
  unfold validateImportRow at h
  split at h
  · cases h; rfl
  · split at h
    · cases h; rfl
    · split at h
      · split at h
        · cases h; rfl
        · split at h
          · split at h
            · cases h; rfl
            · cases h
          · cases h
      · cases h

/-- What a passing `validateImportRow` guarantees: stats untouched, and for a
bureau row, the claim is fresh in this import and compatible with the
pre-loaded holder map before being recorded. -/
theorem validate_pass (m : RowMember) (i : Nat)
    (bim : List (String × String)) (bmap : String → Option Member)
    (stats : ImportStats) (bim2 : List (String × String))
    (stats2 : ImportStats)
    (h : validateImportRow m i bim bmap stats = (true, bim2, stats2)) :
    stats2 = stats ∧
    ((¬ m.status ∈ BUREAU_POSITIONS ∧ bim2 = bim) ∨
     (m.status ∈ BUREAU_POSITIONS ∧
      bim2 = (m.status, (m.email).getD "") :: bim ∧
      bim.lookup m.status = none ∧
      (∀ ex, bmap m.status = some ex → ex.email = (m.email).getD ""))) := by
  unfold validateImportRow at h
  split at h
  · cases h
  · split at h
    · cases h
    · split at h
      case isTrue hbur =>
        split at h
        · cases h
        case isFalse hclaim =>
          have hnone : bim.lookup m.status = none := by
            cases hl : bim.lookup m.status with
            | none => rfl
            | some e => rw [hl] at hclaim; simp at hclaim
          split at h
          case h_1 ex hex =>
            split at h
            · cases h
            case isFalse hee =>
              cases h
              refine ⟨rfl, Or.inr ⟨by simpa using hbur, rfl, hnone, ?_⟩⟩
              intro ex' hex'
              have : ex' = ex := Option.some_injective _ (hex'.symm.trans hex)
              subst this
              by_contra hne
              exact hee (by simpa using hne)
          case h_2 hex =>
            cases h
            refine ⟨rfl, Or.inr ⟨by simpa using hbur, rfl, hnone, ?_⟩⟩
            intro ex' hex'
            rw [hex] at hex'
            cases hex'
      case isFalse hbur =>
        cases h
        exact ⟨rfl, Or.inl ⟨by simpa using hbur, rfl⟩⟩

theorem importUpdatedMember_id (c : Clock) (mem : Member) (m : RowMember) :
    (importUpdatedMember c mem m).id = mem.id := rfl

theorem importUpdatedMember_email (c : Clock) (mem : Member) (m : RowMember) :
    (importUpdatedMember c mem m).email = mem.email := rfl

theorem importUpdatedMember_status (c : Clock) (mem : Member) (m : RowMember) :
    (importUpdatedMember c mem m).status = m.status := rfl

theorem importOrUpdate_updated (c : Clock) (db : List Member) (m : RowMember)
    (db2 : List Member)
    (h : importOrUpdateMember c db m = .updatedRow db2) :
    ∃ ex, db.find? (fun mem => mem.email = (m.email).getD "") = some ex ∧
      db2 = db.map (fun mem =>
        if mem.id = ex.id then importUpdatedMember c mem m else mem) := by
  unfold importOrUpdateMember at h
  split at h
  case h_1 ex hex =>
    split at h
    · cases h
    · cases h
      exact ⟨ex, hex, rfl⟩
  case h_2 hex =>
    split at h <;> cases h

theorem importOrUpdate_inserted (c : Clock) (db : List Member) (m : RowMember)
    (db2 : List Member)
    (h : importOrUpdateMember c db m = .insertedRow db2) :
    db.find? (fun mem => mem.email = (m.email).getD "") = none ∧
      db2 = db ++ [importInsertedMember c db m] := by
  unfold importOrUpdateMember at h
  split at h
  case h_1 ex hex =>
    split at h <;> cases h
  case h_2 hex =>
    split at h
    · cases h
    · cases h
      exact ⟨hex, rfl⟩

theorem lookup_cons_eq (k v : String) (l : List (String × String)) :
    List.lookup k ((k, v) :: l) = some v := by
  simp [List.lookup]

theorem lookup_cons_ne (k k' v : String) (l : List (String × String))
    (h : k ≠ k') : List.lookup k ((k', v) :: l) = List.lookup k l := by
  have : (k == k') = false := beq_eq_false_iff_ne.mpr h
  simp [List.lookup, this]

/-- Recording a fresh, holder-compatible claim keeps the role invariant. -/
theorem roleInv_claim (bmap : String → Option Member) (db : List Member)
    (bim : List (String × String)) (s email : String)
    (hrole : RoleInv bmap db bim)
    (hnone : bim.lookup s = none)
    (hbm : ∀ ex, bmap s = some ex → ex.email = email) :
    RoleInv bmap db ((s, email) :: bim) := by
  intro R hR
  by_cases hRs : R = s
  · subst hRs
    rw [lookup_cons_eq]
    intro m hm hms
    have h0 := hrole R hR
    rw [hnone] at h0
    obtain ⟨m0, hm0, he⟩ := h0 m hm hms
    rw [he]
    exact hbm m0 hm0
  · rw [lookup_cons_ne _ _ _ _ hRs]
    exact hrole R hR

/-- A row map that preserves emails and either preserves each status or sets
a non-bureau status keeps the role invariant. -/
theorem roleInv_map (bmap : String → Option Member) (db : List Member)
    (bim : List (String × String)) (g : Member → Member) (s : String)
    (hs : s ∉ BUREAU_POSITIONS)
    (hge : ∀ m, (g m).email = m.email)
    (hgs : ∀ m, (g m).status = m.status ∨ (g m).status = s)
    (hrole : RoleInv bmap db bim) : RoleInv bmap (db.map g) bim := by
  intro R hR
  have h0 := hrole R hR
  cases hb : bim.lookup R with
  | some e =>
    rw [hb] at h0
    intro m' hm' hs'
    obtain ⟨m, hm, rfl⟩ := List.mem_map.mp hm'
    have hstat : m.status = R := by
      rcases hgs m with hh | hh
      · rw [← hh]; exact hs'
      · exact absurd (hh ▸ hs' ▸ hR) hs
    rw [hge m]
    exact h0 m hm hstat
  | none =>
    rw [hb] at h0
    intro m' hm' hs'
    obtain ⟨m, hm, rfl⟩ := List.mem_map.mp hm'
    have hstat : m.status = R := by
      rcases hgs m with hh | hh
      · rw [← hh]; exact hs'
      · exact absurd (hh ▸ hs' ▸ hR) hs
    rw [hge m]
    exact h0 m hm hstat

/-- The `UPDATE`-by-email of a validated bureau row: only the row with the
claimed email can currently hold the role, and the updated row carries the
claimed email. -/
theorem roleInv_map_bureau (bmap : String → Option Member) (db : List Member)
    (bim : List (String × String)) (c : Clock) (row : RowMember) (ex : Member)
    (hid : IdUnique db)
    (hex_mem : ex ∈ db) (hex_email : ex.email = (row.email).getD "")
    (hnone : bim.lookup row.status = none)
    (hbm : ∀ e0, bmap row.status = some e0 → e0.email = (row.email).getD "")
    (hrole : RoleInv bmap db bim) :
    RoleInv bmap
      (db.map (fun mem =>
        if mem.id = ex.id then importUpdatedMember c mem row else mem))
      ((row.status, (row.email).getD "") :: bim) := by
  intro R hR
  by_cases hRs : R = row.status
  · subst hRs
    rw [lookup_cons_eq]
    intro m' hm' hs'
    obtain ⟨m, hm, rfl⟩ := List.mem_map.mp hm'
    by_cases hmx : m.id = ex.id
    · have hmex : m = ex := hid m hm ex hex_mem hmx
      simp only [hmx, if_true]
      rw [importUpdatedMember_email, hmex]
      exact hex_email
    · simp only [hmx, if_false] at hs' ⊢
      have h0 := hrole row.status hR
      rw [hnone] at h0
      obtain ⟨m0, hm0, he⟩ := h0 m hm hs'
      rw [he]
      exact hbm m0 hm0
  · rw [lookup_cons_ne _ _ _ _ hRs]
    have h0 := hrole R hR
    cases hb : bim.lookup R with
    | some e =>
      rw [hb] at h0
      intro m' hm' hs'
      obtain ⟨m, hm, rfl⟩ := List.mem_map.mp hm'
      by_cases hmx : m.id = ex.id
      · simp only [hmx, if_true, importUpdatedMember_status] at hs'
        exact absurd hs'.symm hRs
      · simp only [hmx, if_false] at hs' ⊢
        exact h0 m hm hs'
    | none =>
      rw [hb] at h0
      intro m' hm' hs'
      obtain ⟨m, hm, rfl⟩ := List.mem_map.mp hm'
      by_cases hmx : m.id = ex.id
      · simp only [hmx, if_true, importUpdatedMember_status] at hs'
        exact absurd hs'.symm hRs
      · simp only [hmx, if_false] at hs' ⊢
        exact h0 m hm hs'

/-- The `INSERT` of a validated bureau row. -/
theorem roleInv_append_bureau (bmap : String → Option Member)
    (db : List Member) (bim : List (String × String)) (newM : Member)
    (s email : String) (hstat : newM.status = s) (hemail : newM.email = email)
    (hnone : bim.lookup s = none)
    (hbm : ∀ e0, bmap s = some e0 → e0.email = email)
    (hrole : RoleInv bmap db bim) :
    RoleInv bmap (db ++ [newM]) ((s, email) :: bim) := by
  intro R hR
  by_cases hRs : R = s
  · subst hRs
    rw [lookup_cons_eq]
    intro m hm hms
    rcases List.mem_append.mp hm with hm | hm
    · have h0 := hrole R hR
      rw [hnone] at h0
      obtain ⟨m0, hm0, he⟩ := h0 m hm hms
      rw [he]
      exact hbm m0 hm0
    · rw [List.mem_singleton.mp hm]
      exact hemail
  · rw [lookup_cons_ne _ _ _ _ hRs]
    have h0 := hrole R hR
    cases hb : bim.lookup R with
    | some e =>
      rw [hb] at h0
      intro m hm hms
      rcases List.mem_append.mp hm with hm | hm
      · exact h0 m hm hms
      · rw [List.mem_singleton.mp hm] at hms
        exact absurd (hms.symm.trans hstat) hRs
    | none =>
      rw [hb] at h0
      intro m hm hms
      rcases List.mem_append.mp hm with hm | hm
      · exact h0 m hm hms
      · rw [List.mem_singleton.mp hm] at hms
        exact absurd (hms.symm.trans hstat) hRs

/-- The `INSERT` of a non-bureau row. -/
theorem roleInv_append_nonbureau (bmap : String → Option Member)
    (db : List Member) (bim : List (String × String)) (newM : Member)
    (s : String) (hs : s ∉ BUREAU_POSITIONS) (hstat : newM.status = s)
    (hrole : RoleInv bmap db bim) : RoleInv bmap (db ++ [newM]) bim := by
  intro R hR
  have h0 := hrole R hR
  cases hb : bim.lookup R with
  | some e =>
    rw [hb] at h0
    intro m hm hms
    rcases List.mem_append.mp hm with hm | hm
    · exact h0 m hm hms
    · rw [List.mem_singleton.mp hm] at hms
      exact absurd ((hms.symm.trans hstat) ▸ hR) hs
  | none =>
    rw [hb] at h0
    intro m hm hms
    rcases List.mem_append.mp hm with hm | hm
    · exact h0 m hm hms
    · rw [List.mem_singleton.mp hm] at hms
      exact absurd ((hms.symm.trans hstat) ▸ hR) hs

/-- One import-loop iteration preserves the invariant. -/
theorem processRow_importInv (c : Clock) (bmap : String → Option Member)
    (hm : HeaderMap) (st : ImportState) (p : Nat × String)
    (h : ImportInv bmap st) : ImportInv bmap (processRow c bmap hm st p) := by
  obtain ⟨hid, hem, hrole⟩ := h
  simp only [processRow]
  split
  · exact ⟨hid, hem, hrole⟩
  set row := extractMemberFromRow (parseCSVLine (jsTrim p.2)) hm with hrow
  split
  · rename_i bim2 stats2 hv
    have hb := validate_fail_bim _ _ _ _ _ _ _ hv
    subst hb
    exact ⟨hid, hem, hrole⟩
  · rename_i bim2 stats2 hv
    obtain ⟨hstats, hcase⟩ := validate_pass _ _ _ _ _ _ _ hv
    split
    · rename_i db2 hw
      obtain ⟨ex, hfind, hdb2⟩ := importOrUpdate_updated _ _ _ _ hw
      subst hdb2
      have hex_mem : ex ∈ st.db := List.mem_of_find?_eq_some hfind
      have hex_email : ex.email = (row.email).getD "" := by
        have := List.find?_some hfind
        simpa using this
      refine ⟨?_, ?_, ?_⟩
      · refine idUnique_map _ _ ?_ hid
        intro m
        by_cases hx : m.id = ex.id <;> simp [hx, importUpdatedMember_id]
      · refine emailUnique_map _ _ ?_ hem
        intro m
        by_cases hx : m.id = ex.id <;> simp [hx, importUpdatedMember_email]
      · rcases hcase with ⟨hnb, rfl⟩ | ⟨hb, rfl, hnone, hbm⟩
        · refine roleInv_map bmap st.db st.bim _ row.status hnb ?_ ?_ hrole
          · intro m
            by_cases hx : m.id = ex.id <;> simp [hx, importUpdatedMember_email]
          · intro m
            by_cases hx : m.id = ex.id
            · right
              simp [hx, importUpdatedMember_status]
            · left
              simp [hx]
        · exact roleInv_map_bureau bmap st.db st.bim c row ex hid hex_mem
            hex_email hnone hbm hrole
    · rename_i db2 hw
      obtain ⟨hfind, hdb2⟩ := importOrUpdate_inserted _ _ _ _ hw
      subst hdb2
      have hfresh : ∀ mem ∈ st.db, mem.email ≠ (row.email).getD "" := by
        intro mem hmem
        have := List.find?_eq_none.mp hfind mem hmem
        simpa using this
      refine ⟨?_, ?_, ?_⟩
      · refine idUnique_append _ _ hid ?_
        intro mem hmem
        have h1 := nextId_fresh st.db mem hmem
        simp only [importInsertedMember]
        omega
      · refine emailUnique_append _ _ hem ?_
        intro mem hmem
        simpa [importInsertedMember] using hfresh mem hmem
      · rcases hcase with ⟨hnb, rfl⟩ | ⟨hb, rfl, hnone, hbm⟩
        · exact roleInv_append_nonbureau bmap st.db st.bim _ row.status hnb
            rfl hrole
        · exact roleInv_append_bureau bmap st.db st.bim _ row.status
            ((row.email).getD "") rfl rfl hnone hbm hrole
    · rename_i msg hw
      refine ⟨hid, hem, ?_⟩
      rcases hcase with ⟨hnb, rfl⟩ | ⟨hb, rfl, hnone, hbm⟩
      · exact hrole
      · exact roleInv_claim bmap st.db st.bim row.status _ hrole hnone hbm

theorem foldl_processRow_importInv (c : Clock)
    (bmap : String → Option Member) (hm : HeaderMap)
    (rows : List (Nat × String)) (st : ImportState)
    (h : ImportInv bmap st) :
    ImportInv bmap (rows.foldl (processRow c bmap hm) st) := by
  induction rows generalizing st with
  | nil => exact h
  | cons r t ih => exact ih _ (processRow_importInv c bmap hm st r h)

/-- Part (b) of the uniqueness invariant: a completed CSV import preserves
bureau-role uniqueness. -/
theorem importCSV_roleUnique (c : Clock) (db : List Member)
    (csvData : String) (st : ImportState) (hid : IdUnique db)
    (hem : EmailUnique db) (h : RoleUnique db)
    (hdone : importCSV c db csvData = .done st) : RoleUnique st.db := by
  simp only [importCSV] at hdone
  split at hdone
  · cases hdone
  · split at hdone
    · cases hdone
    · split at hdone
      · cases hdone
      · cases hdone
        exact importInv_roleUnique _ _
          (foldl_processRow_importInv _ _ _ _ _ (importInv_init db hid hem h))

/-- **C1**: For every reachable state of the members store, and for each of
the four unique bureau roles `president`, `vice_president`, `secretary` and
`treasurer`, at most one member has that role as its status at any instant;
no operation of the core (`updateMember`, `importCSV`) can produce a state
where two distinct members hold the same unique role (`honorary_president`
is exempt: it is not in `BUREAU_POSITIONS`, so `RoleUnique` does not
constrain it).  Reachable states have unique ids (`AUTOINCREMENT`) and
unique emails (`email TEXT NOT NULL UNIQUE`), which appear as hypotheses. -/
theorem c1_unique_role_preservation :
    (∀ (c : Clock) (db : List Member) (hist : List HistoryEntry)
        (memberId : Nat) (b : Body), IdUnique db → RoleUnique db →
        RoleUnique (updateMember c db hist memberId b).db) ∧
    (∀ (c : Clock) (db : List Member) (csvData : String) (st : ImportState),
        IdUnique db → EmailUnique db → RoleUnique db →
        importCSV c db csvData = .done st → RoleUnique st.db) :=
  ⟨fun c db hist X b hid h => updateMember_roleUnique c db hist X b hid h,
   fun c db csv st hid hem h hdone =>
      importCSV_roleUnique c db csv st hid hem h hdone⟩

theorem c1_unique_role_preservation_witness :
    RoleUnique (updateMember ⟨5, 9, 2024⟩
      [⟨1, "A", "B", "a@b.cc", none, none, none, "T", none, none, none,
        "pending", none, none, 0⟩] [] 1 { status := some "president" }).db ∧
    RoleUnique (importCSV ⟨5, 9, 2024⟩ []
      "Prénom,Nom,Email\nJean,Dupont,j@x.yy").state.db :=
  ⟨c1_unique_role_preservation.1 ⟨5, 9, 2024⟩ _ [] 1 _ (by decide) (by decide),
   c1_unique_role_preservation.2 ⟨5, 9, 2024⟩ []
     "Prénom,Nom,Email\nJean,Dupont,j@x.yy" _ (by decide) (by decide)
     (by decide) (by decide)⟩

/-! ### Path lemmas for the updateMember claims -/

theorem bureau_sub_valid (R : String) (hR : R ∈ BUREAU_POSITIONS) :
    VALID_STATUSES.contains R = true := by
  fin_cases hR <;> decide

theorem onOpt_eq_nil (o : Option String) (f : String → FieldUpdate) :
    onOpt o f = [] ↔ o = none := by
  cases o <;> simp [onOpt]

theorem buildFieldUpdates_eq_nil_iff (b : Body) :
    buildFieldUpdates b = [] ↔
      (b.firstName = none ∧ b.lastName = none ∧ b.email = none ∧
       b.studentId = none ∧ b.enrollmentTrack = none ∧ b.phone = none ∧
       b.telegram = none ∧ b.discord = none ∧ b.enrollmentNumber = none ∧
       b.notes = none) := by
  unfold buildFieldUpdates
  simp only [List.append_eq_nil, onOpt_eq_nil]
  tauto

/-- `buildFieldUpdates` never touches `approved_at` or `expires_at`. -/
theorem buildFieldUpdates_no_dates (b : Body) (u : FieldUpdate)
    (hu : u ∈ buildFieldUpdates b) :
    u ≠ FieldUpdate.approvedAtNow ∧ ∀ v, u ≠ FieldUpdate.expiresAtStr v := by
  unfold buildFieldUpdates at hu
  simp only [List.mem_append] at hu
  rcases hu with ((((((((hu | hu) | hu) | hu) | hu) | hu) | hu) | hu) | hu) | hu <;>
    · obtain ⟨x, rfl⟩ := onOpt_mem _ _ _ hu
      exact ⟨by simp, fun v => by simp⟩

theorem applyUpdate_dates (c : Clock) (m : Member) (u : FieldUpdate)
    (h : u ≠ FieldUpdate.approvedAtNow ∧ ∀ v, u ≠ FieldUpdate.expiresAtStr v) :
    (applyUpdate c m u).approvedAt = m.approvedAt ∧
      (applyUpdate c m u).expiresAt = m.expiresAt := by
  cases u <;> first
    | exact ⟨rfl, rfl⟩
    | exact absurd rfl h.1
    | exact absurd rfl (h.2 _)

theorem foldl_applyUpdate_dates (c : Clock) (us : List FieldUpdate)
    (m : Member)
    (h : ∀ u ∈ us, u ≠ FieldUpdate.approvedAtNow ∧
      ∀ v, u ≠ FieldUpdate.expiresAtStr v) :
    (us.foldl (applyUpdate c) m).approvedAt = m.approvedAt ∧
      (us.foldl (applyUpdate c) m).expiresAt = m.expiresAt := by
  induction us generalizing m with
  | nil => exact ⟨rfl, rfl⟩
  | cons u t ih =>
    simp only [List.foldl_cons]
    obtain ⟨h1, h2⟩ := applyUpdate_dates c m u (h u (List.mem_cons_self _ _))
    obtain ⟨h3, h4⟩ := ih (applyUpdate c m u)
      (fun u hu => h u (List.mem_cons_of_mem _ hu))
    exact ⟨h3.trans h1, h4.trans h2⟩

/-- Steering lemma: with the target present and no other holder of `s`, the
CAS succeeds and produces exactly the updated table plus the log entry. -/
theorem handleBureau_ok_of_no_other (c : Clock) (db : List Member)
    (hist : List HistoryEntry) (X : Nat) (s cur : String) (r : Option String)
    (hX : ∃ m ∈ db, m.id = X)
    (honly : ∀ m ∈ db, m.status = s → m.id = X) :
    handleBureauStatusUpdate c db hist X s cur r =
      .ok (updMember db X (fun m => { m with status := s, updatedAt := c.now }))
        (hist ++ [⟨X, some cur, s, r.getD "Status updated by admin"⟩]) := by
  unfold handleBureauStatusUpdate
  have h1 : (db.any fun m => m.id = X) = true := by
    obtain ⟨m, hm, hmx⟩ := hX
    exact List.any_eq_true.mpr ⟨m, hm, by simp [hmx]⟩
  have h2 : (db.any fun m => m.status = s && m.id ≠ X) = false := by
    apply List.any_eq_false.mpr
    intro x hx
    simp only [Bool.and_eq_true, decide_eq_true_eq, not_and]
    intro hxs hxid
    exact hxid (honly x hx hxs)
  have hcas : ((db.any fun m => m.id = X) &&
      !(db.any fun m => m.status = s && m.id ≠ X)) = true := by
    rw [h1, h2]
    rfl
  simp only [hcas]
  rfl

theorem finishUpdate_cases (c : Clock) (db : List Member)
    (hist : List HistoryEntry) (X : Nat) (b : Body) (current : Member)
    (us : List FieldUpdate) :
    (us = [] ∧ finishUpdate c db hist X b current us =
      ⟨.noUpdates, db, hist⟩) ∨
    (us ≠ [] ∧ finishUpdate c db hist X b current us =
      ⟨.success, applyUpdatesTo c db X (us ++ [.updatedAtNow]),
        logStatusChange hist X b current⟩) := by
  by_cases h : us = []
  · subst h
    left
    exact ⟨rfl, by simp [finishUpdate]⟩
  · right
    refine ⟨h, ?_⟩
    simp only [finishUpdate]
    rw [if_neg ?_]
    intro hlen
    rw [List.length_append, List.length_singleton] at hlen
    exact h (List.length_eq_zero.mp (by omega))

/-- Extracting the single id-matching row after an `UPDATE ... WHERE id`. -/
theorem updMember_mem_id (db : List Member) (X : Nat) (f : Member → Member)
    (m : Member) (hid : IdUnique db) (hf : ∀ x, (f x).id = x.id)
    (hm : m ∈ db) (hmx : m.id = X) (m' : Member)
    (hm' : m' ∈ updMember db X f) (hid' : m'.id = X) : m' = f m := by
  obtain ⟨m0, hm0, rfl⟩ := List.mem_map.mp hm'
  by_cases hx : m0.id = X
  · rw [hid m0 hm0 m hm (hx.trans hmx.symm)]
    simp [hmx]
  · rw [if_neg hx] at hid' ⊢
    exact absurd hid' hx

/-- **C3**: A member already holding unique bureau role `R` can re-submit
status `R` (alone or together with other member-field edits) without ever
receiving a Conflict: the CAS exclusion predicate `id != ?` excludes the
member's own row.  With no stray `approvedAt`/`expiresAt` keys in the body,
the call returns success. -/
theorem c3_self_reassignment_no_conflict (c : Clock) (db : List Member)
    (hist : List HistoryEntry) (m : Member) (R : String) (b : Body)
    (hid : IdUnique db) (hm : m ∈ db) (hR : R ∈ BUREAU_POSITIONS)
    (honly : ∀ x ∈ db, x.status = R → x.id = m.id)
    (hbs : b.status = some R) :
    (updateMember c db hist m.id b).outcome.isConflict = false ∧
    (b.approvedAt = none → b.expiresAt = none →
      (updateMember c db hist m.id b).outcome = .success) := by
  have hfind : db.find? (fun x => x.id = m.id) = some m :=
    find_id_unique db m m.id hid hm rfl
  have hvalid : VALID_STATUSES.contains R = true := bureau_sub_valid R hR
  have hok := handleBureau_ok_of_no_other c db hist m.id R m.status b.reason
    ⟨m, hm, rfl⟩ honly
  simp only [updateMember, hfind]
  rw [hbs]
  dsimp only
  rw [if_neg (by simp only [Decidable.not_not]; simpa using hvalid),
    if_pos (by simpa using hR), hok]
  dsimp only
  constructor
  · split
    · rfl
    · rcases finishUpdate_cases c _ _ m.id b m (buildFieldUpdates b) with
        ⟨_, hfin⟩ | ⟨_, hfin⟩ <;> rw [hfin] <;> rfl
  · intro hA hE
    split
    · rfl
    · rename_i hcond
      rcases finishUpdate_cases c _ _ m.id b m (buildFieldUpdates b) with
        ⟨hnil, hfin⟩ | ⟨hne, hfin⟩
      · exfalso
        apply hcond
        obtain ⟨-, -, -, -, -, -, -, -, h9, h10⟩ :=
          (buildFieldUpdates_eq_nil_iff b).mp hnil
        simp [hA, hE, h9, h10, hnil]
      · rw [hfin]

theorem handleBureau_ok_inv (c : Clock) (db : List Member)
    (hist : List HistoryEntry) (X : Nat) (s cur : String) (r : Option String)
    (db1 : List Member) (hist1 : List HistoryEntry)
    (hok : handleBureauStatusUpdate c db hist X s cur r = .ok db1 hist1) :
    db1 = updMember db X
        (fun m => { m with status := s, updatedAt := c.now }) ∧
      hist1 = hist ++ [⟨X, some cur, s, r.getD "Status updated by admin"⟩] := by
  simp only [handleBureauStatusUpdate] at hok
  split at hok
  · cases hok
    exact ⟨rfl, rfl⟩
  · split at hok <;> cases hok

theorem bureau_sub_active (s : String) (h : s ∈ BUREAU_POSITIONS) :
    ACTIVE_STATUSES.contains s = true := by
  fin_cases h <;> decide

theorem idUnique_applyUpdatesTo (c : Clock) (db : List Member) (X : Nat)
    (us : List FieldUpdate) (hid : IdUnique db) :
    IdUnique (applyUpdatesTo c db X us) := by
  refine idUnique_map db _ (fun m => ?_) hid
  by_cases hx : m.id = X <;> simp [hx, foldl_applyUpdate_id]

theorem applyUpdatesTo_member (c : Clock) (db : List Member) (X : Nat)
    (us : List FieldUpdate) (m : Member) (hid : IdUnique db) (hm : m ∈ db)
    (hmx : m.id = X) (m' : Member) (hm' : m' ∈ applyUpdatesTo c db X us)
    (hid' : m'.id = X) : m' = us.foldl (applyUpdate c) m :=
  updMember_mem_id db X _ m hid (fun x => foldl_applyUpdate_id c us x)
    hm hmx m' hm' hid'

theorem bool_eq_false_of_ne_true {b : Bool} (h : ¬ b = true) : b = false := by
  cases b
  · rfl
  · exact absurd rfl h

theorem approvalTrigger_eq (b : Body) (current : Member) (s : String)
    (hbs : b.status = some s) :
    approvalTrigger b current =
      (ACTIVE_STATUSES.contains s &&
        !(ACTIVE_STATUSES.contains current.status) &&
        (!(BUREAU_POSITIONS.contains s) ||
          (!(b.approvedAt.isSome || b.expiresAt.isSome ||
              b.enrollmentNumber.isSome || b.notes.isSome) &&
            decide (buildFieldUpdates b = [])))) := by
  unfold approvalTrigger
  rw [hbs]

theorem setApprovalDates_of_true (c : Clock) (s cur : String)
    (h : (ACTIVE_STATUSES.contains s &&
      !(ACTIVE_STATUSES.contains cur)) = true) :
    setApprovalDates c s cur =
      [.approvedAtNow, .expiresAtStr (expiryString c)] := by
  unfold setApprovalDates
  rw [h]
  rfl

theorem setApprovalDates_of_false (c : Clock) (s cur : String)
    (h : (ACTIVE_STATUSES.contains s &&
      !(ACTIVE_STATUSES.contains cur)) = false) :
    setApprovalDates c s cur = [] := by
  unfold setApprovalDates
  rw [h]
  rfl

/-- **C4 (amended)**: For every successful `updateMember` call, the member's
approval time becomes `now` and the expiry becomes `YYYY-08-31` (with `YYYY`
the next calendar year when the zero-based month is ≥ 8, else the current
year) exactly when `approvalTrigger` holds — i.e. when the patch moves the
status from outside the code's active-like set
`{active, honor, secretary, treasurer, president, vice_president}` into it,
and, for one of the four unique bureau roles, the body carries no other
recognized update.  `honorary_president` is NOT in this set (the code's
`activeStatuses` is built from `BUREAU_POSITIONS`, which excludes it), so a
transition into `honorary_president` never writes the dates; in every other
successful call both fields keep their stored values, so the computation is
never re-triggered by re-submitting a held active-like status or by
non-status edits. -/
theorem c4_approval_dates_characterization (c : Clock) (db : List Member)
    (hist : List HistoryEntry) (m : Member) (b : Body)
    (hid : IdUnique db) (hm : m ∈ db)
    (hsucc : (updateMember c db hist m.id b).outcome = .success) :
    ∀ m' ∈ (updateMember c db hist m.id b).db, m'.id = m.id →
      m'.approvedAt =
        (if approvalTrigger b m then some c.now else m.approvedAt) ∧
      m'.expiresAt =
        (if approvalTrigger b m then some (expiryString c) else m.expiresAt) := by
  have hfind : db.find? (fun x => x.id = m.id) = some m :=
    find_id_unique db m m.id hid hm rfl
  intro m' hm' hidm'
  simp only [updateMember, hfind] at hsucc hm'
  cases hbs : b.status with
  | none =>
    rw [hbs] at hsucc hm'
    dsimp only at hsucc hm'
    have htrig : approvalTrigger b m = false := by
      simp [approvalTrigger, hbs]
    rw [htrig]
    simp only [Bool.false_eq_true, if_false]
    rcases finishUpdate_cases c db hist m.id b m (buildFieldUpdates b) with
      ⟨_, hfin⟩ | ⟨_, hfin⟩ <;> rw [hfin] at hsucc hm'
    · simp at hsucc
    · dsimp only at hm'
      have hm'eq := applyUpdatesTo_member c db m.id _ m hid hm rfl m' hm' hidm'
      subst hm'eq
      exact foldl_applyUpdate_dates c _ m (by
        intro u hu
        rcases List.mem_append.mp hu with hu | hu
        · exact buildFieldUpdates_no_dates b u hu
        · rw [List.mem_singleton.mp hu]
          exact ⟨by simp, fun v => by simp⟩)
  | some s =>
    rw [hbs] at hsucc hm'
    dsimp only at hsucc hm'
    by_cases hval : ¬ VALID_STATUSES.contains s
    · rw [if_pos hval] at hsucc
      simp at hsucc
    · rw [if_neg hval] at hsucc hm'
      by_cases hbur : s ∈ BUREAU_POSITIONS
      · rw [if_pos (by simpa using hbur)] at hsucc hm'
        cases hres : handleBureauStatusUpdate c db hist m.id s m.status
            b.reason with
        | conflictErr f l =>
          rw [hres] at hsucc
          simp at hsucc
        | notFoundErr =>
          rw [hres] at hsucc
          simp at hsucc
        | ok db1 hist1 =>
          rw [hres] at hsucc hm'
          obtain ⟨hdb1, hhist1⟩ := handleBureau_ok_inv c db hist m.id s
            m.status b.reason db1 hist1 hres
          subst hdb1
          have hbc : BUREAU_POSITIONS.contains s = true := by simpa using hbur
          have hactS : ACTIVE_STATUSES.contains s = true :=
            bureau_sub_active s hbur
          have hid1 : IdUnique (updMember db m.id
              (fun x => { x with status := s, updatedAt := c.now })) := by
            refine idUnique_map db _ (fun x => ?_) hid
            by_cases hx : x.id = m.id <;> simp [hx]
          have hmem1 : ({ m with status := s, updatedAt := c.now } : Member) ∈
              updMember db m.id
                (fun x => { x with status := s, updatedAt := c.now }) := by
            refine List.mem_map.mpr ⟨m, hm, ?_⟩
            simp
          dsimp only at hsucc hm'
          by_cases hcnd : (!(b.approvedAt.isSome || b.expiresAt.isSome ||
              b.enrollmentNumber.isSome || b.notes.isSome) &&
              decide (buildFieldUpdates b = [])) = true
          · rw [if_pos hcnd] at hm'
            dsimp only at hm'
            by_cases hact : ACTIVE_STATUSES.contains m.status = true
            · have hcc : (ACTIVE_STATUSES.contains s &&
                  !(ACTIVE_STATUSES.contains m.status)) = false := by
                rw [hact, Bool.not_true, Bool.and_false]
              rw [setApprovalDates_of_false c s m.status hcc] at hm'
              rw [if_neg (by simp)] at hm'
              have htrig : approvalTrigger b m = false := by
                rw [approvalTrigger_eq b m s hbs, hcc, Bool.false_and]
              rw [htrig]
              simp only [Bool.false_eq_true, if_false]
              have hm'eq := updMember_mem_id db m.id
                (fun x => { x with status := s, updatedAt := c.now }) m hid
                (fun x => rfl) hm rfl m' hm' hidm'
              subst hm'eq
              exact ⟨rfl, rfl⟩
            · have hBf := bool_eq_false_of_ne_true hact
              have hcc : (ACTIVE_STATUSES.contains s &&
                  !(ACTIVE_STATUSES.contains m.status)) = true := by
                rw [hactS, hBf, Bool.not_false, Bool.and_self]
              rw [setApprovalDates_of_true c s m.status hcc] at hm'
              rw [if_pos (by simp)] at hm'
              have hm'eq := applyUpdatesTo_member c _ m.id _
                ({ m with status := s, updatedAt := c.now }) hid1 hmem1 rfl
                m' hm' hidm'
              subst hm'eq
              have htrig : approvalTrigger b m = true := by
                rw [approvalTrigger_eq b m s hbs, hcc, Bool.true_and, hbc,
                  Bool.not_true, Bool.false_or, hcnd]
              rw [htrig]
              simp only [if_true]
              exact ⟨rfl, rfl⟩
          · rw [if_neg hcnd] at hsucc hm'
            have hcf := bool_eq_false_of_ne_true hcnd
            have htrig : approvalTrigger b m = false := by
              rw [approvalTrigger_eq b m s hbs, hbc, Bool.not_true,
                Bool.false_or, hcf, Bool.and_false]
            rw [htrig]
            simp only [Bool.false_eq_true, if_false]
            rcases finishUpdate_cases c _ hist1 m.id b m
                (buildFieldUpdates b) with ⟨_, hfin⟩ | ⟨_, hfin⟩ <;>
              rw [hfin] at hsucc hm'
            · simp at hsucc
            · dsimp only at hm'
              have hm'eq := applyUpdatesTo_member c _ m.id _
                ({ m with status := s, updatedAt := c.now }) hid1 hmem1 rfl
                m' hm' hidm'
              subst hm'eq
              have hpres := foldl_applyUpdate_dates c
                (buildFieldUpdates b ++ [.updatedAtNow])
                ({ m with status := s, updatedAt := c.now }) (by
                  intro u hu
                  rcases List.mem_append.mp hu with hu | hu
                  · exact buildFieldUpdates_no_dates b u hu
                  · rw [List.mem_singleton.mp hu]
                    exact ⟨by simp, fun v => by simp⟩)
              exact hpres
      · rw [if_neg (by simpa using hbur)] at hsucc hm'
        have hbc : BUREAU_POSITIONS.contains s = false := by
          cases hB : BUREAU_POSITIONS.contains s with
          | false => rfl
          | true => exact absurd (by simpa using hB) hbur
        rcases finishUpdate_cases c db hist m.id b m
            (buildFieldUpdates b ++ [.statusU s] ++
              setApprovalDates c s m.status) with ⟨hnil, hfin⟩ | ⟨_, hfin⟩
        · simp at hnil
        · rw [hfin] at hsucc hm'
          dsimp only at hm'
          have hm'eq := applyUpdatesTo_member c db m.id _ m hid hm rfl
            m' hm' hidm'
          subst hm'eq
          by_cases hact : (ACTIVE_STATUSES.contains s &&
              !(ACTIVE_STATUSES.contains m.status)) = true
          · have hdates := setApprovalDates_of_true c s m.status hact
            have htrig : approvalTrigger b m = true := by
              rw [approvalTrigger_eq b m s hbs, hact, Bool.true_and, hbc,
                Bool.not_false, Bool.true_or]
            rw [hdates, htrig]
            simp only [if_true]
            rw [List.foldl_append, List.foldl_append, List.foldl_append]
            exact ⟨rfl, rfl⟩
          · have hactf := bool_eq_false_of_ne_true hact
            have hdates := setApprovalDates_of_false c s m.status hactf
            have htrig : approvalTrigger b m = false := by
              rw [approvalTrigger_eq b m s hbs, hactf, Bool.false_and]
            rw [hdates, htrig]
            simp only [Bool.false_eq_true, if_false]
            exact foldl_applyUpdate_dates c _ m (by
              intro u hu
              rcases List.mem_append.mp hu with hu | hu
              · rcases List.mem_append.mp hu with hu | hu
                · rcases List.mem_append.mp hu with hu | hu
                  · exact buildFieldUpdates_no_dates b u hu
                  · rw [List.mem_singleton.mp hu]
                    exact ⟨by simp, fun v => by simp⟩
                · cases hu
              · rw [List.mem_singleton.mp hu]
                exact ⟨by simp, fun v => by simp⟩)

theorem sysInv_init (R : String) (X Y : Nat) (db : List Member)
    (hX : ∃ m ∈ db, m.id = X) (hY : ∃ m ∈ db, m.id = Y)
    (hnoR : ∀ m ∈ db, m.status ≠ R) : SysInv R X Y (initSys db) := by
  refine ⟨hX, hY, fun m hm _ _ => hnoR m hm, ?_, ?_, ?_, ?_, ?_, ?_, ?_⟩
  · intro m hm _
    simp [ReqWin, initSys, hnoR m hm]
  · intro m hm _
    simp [ReqWin, initSys, hnoR m hm]
  · rintro ⟨hw, -⟩
    simp [ReqWin, initSys] at hw
  · intro hl
    simp [ReqLose, initSys] at hl
  · intro hl
    simp [ReqLose, initSys] at hl
  · intro hd
    simp [initSys] at hd
  · intro hd
    simp [initSys] at hd

/-- `SysInv` is symmetric under swapping the two requests. -/
theorem sysInv_swap (R : String) (X Y : Nat) (s : Sys)
    (h : SysInv R X Y s) : SysInv R Y X ⟨s.db, s.hist, s.rb, s.ra⟩ := by
  obtain ⟨hXex, hYex, hthird, hXiff, hYiff, hnotboth, hLA, hLB, hdA, hdB⟩ := h
  exact ⟨hYex, hXex, fun m hm h1 h2 => hthird m hm h2 h1, hYiff, hXiff,
    fun hc => hnotboth ⟨hc.2, hc.1⟩, hLB, hLA, hdB, hdA⟩

theorem stepA_inv (c : Clock) (R : String) (X Y : Nat) (hXY : X ≠ Y)
    (s : Sys) (h : SysInv R X Y s) : SysInv R X Y (stepSys c R X Y s true) := by
  obtain ⟨db, hist, ra, rb⟩ := s
  obtain ⟨pc, saved, res⟩ := ra
  obtain ⟨hXex, hYex, hthird, hXiff, hYiff, hnotboth, hLA, hLB, hdA, hdB⟩ := h
  cases pc with
  | p0 =>
    have hw0 : ¬ ReqWin ⟨.p0, saved, res⟩ := by simp [ReqWin]
    have hl0 : ¬ ReqLose ⟨.p0, saved, res⟩ := by simp [ReqLose]
    have hfind : ∃ m0, db.find? (fun m => m.id = X) = some m0 := by
      have hs : (db.find? (fun m => decide (m.id = X))).isSome := by
        rw [List.find?_isSome]
        obtain ⟨m, hm, hmx⟩ := hXex
        exact ⟨m, hm, by simp [hmx]⟩
      exact Option.isSome_iff_exists.mp hs
    obtain ⟨m0, hm0⟩ := hfind
    simp only [stepSys, stepReq, if_true, hm0]
    refine ⟨hXex, hYex, hthird, ?_, hYiff, ?_, ?_, ?_, ?_, hdB⟩
    · intro m hm hmx
      rw [hXiff m hm hmx]
      constructor
      · intro hw
        exact absurd hw hw0
      · intro hw
        simp [ReqWin] at hw
    · rintro ⟨hw, -⟩
      simp [ReqWin] at hw
    · intro hl
      simp [ReqLose] at hl
    · intro hl
      exact absurd (hLB hl) hw0
    · intro hd
      simp at hd
  | p1 =>
    have hw1 : ¬ ReqWin ⟨.p1, saved, res⟩ := by simp [ReqWin]
    by_cases hcas : ((db.any fun m => m.id = X) &&
        !(db.any fun m => m.status = R && m.id ≠ X)) = true
    · have honly : ∀ m ∈ db, m.status = R → m.id = X := by
        intro m hm hms
        have h2 : (db.any fun m => m.status = R && m.id ≠ X) = false := by
          cases hB : (db.any fun m => m.status = R && m.id ≠ X) with
          | false => rfl
          | true =>
            rw [hB] at hcas
            simp at hcas
        have := List.any_eq_false.mp h2 m hm
        simp only [Bool.and_eq_true, decide_eq_true_eq] at this
        by_contra hx
        exact this ⟨hms, hx⟩
      have hnwB : ¬ ReqWin rb := by
        intro hwB
        obtain ⟨mY, hmY, hmYid⟩ := hYex
        have : mY.status = R := (hYiff mY hmY hmYid).mpr hwB
        exact hXY ((honly mY hmY this).symm.trans hmYid)
      simp only [stepSys, stepReq, if_true, hcas]
      refine ⟨?_, ?_, ?_, ?_, ?_, ?_, ?_, ?_, ?_, hdB⟩
      · obtain ⟨m, hm, hmx⟩ := hXex
        exact ⟨(if m.id = X then { m with status := R, updatedAt := c.now }
          else m), List.mem_map.mpr ⟨m, hm, rfl⟩, by simp [hmx]⟩
      · obtain ⟨m, hm, hmy⟩ := hYex
        refine ⟨(if m.id = X then { m with status := R, updatedAt := c.now }
          else m), List.mem_map.mpr ⟨m, hm, rfl⟩, ?_⟩
        by_cases hx : m.id = X
        · exact absurd (hx.symm.trans hmy) hXY
        · rw [if_neg hx]
          exact hmy
      · intro m' hm' h1 h2
        obtain ⟨m, hm, rfl⟩ := List.mem_map.mp hm'
        by_cases hx : m.id = X
        · rw [if_pos hx] at h1
          exact absurd hx h1
        · rw [if_neg hx] at h1 h2 ⊢
          exact hthird m hm h1 h2
      · intro m' hm' hmx
        obtain ⟨m, hm, rfl⟩ := List.mem_map.mp hm'
        by_cases hx : m.id = X
        · rw [if_pos hx]
          simp [ReqWin]
        · rw [if_neg hx] at hmx
          exact absurd hmx hx
      · intro m' hm' hmy
        obtain ⟨m, hm, rfl⟩ := List.mem_map.mp hm'
        by_cases hx : m.id = X
        · rw [if_pos hx] at hmy
          have hmy' : m.id = Y := hmy
          exact absurd (hx.symm.trans hmy') hXY
        · rw [if_neg hx] at hmy ⊢
          exact hYiff m hm hmy
      · rintro ⟨-, hwB⟩
        exact hnwB hwB
      · intro hl
        simp [ReqLose] at hl
      · intro hl
        exact absurd (hLB hl) hw1
      · intro hd
        simp at hd
    · have hlose : ∃ m ∈ db, m.status = R ∧ m.id ≠ X := by
        obtain ⟨mX, hmX, hmXid⟩ := hXex
        have h1 : (db.any fun m => m.id = X) = true :=
          List.any_eq_true.mpr ⟨mX, hmX, by simp [hmXid]⟩
        have h2 : (db.any fun m => m.status = R && m.id ≠ X) = true := by
          cases hB : (db.any fun m => m.status = R && m.id ≠ X) with
          | true => rfl
          | false =>
            exfalso
            apply hcas
            rw [h1, hB]
            rfl
        obtain ⟨m, hm, hp⟩ := List.any_eq_true.mp h2
        simp only [Bool.and_eq_true, decide_eq_true_eq] at hp
        exact ⟨m, hm, hp⟩
      have hwB : ReqWin rb := by
        obtain ⟨m, hm, hms, hmx⟩ := hlose
        by_cases hy : m.id = Y
        · exact (hYiff m hm hy).mp hms
        · exact absurd hms (hthird m hm hmx hy)
      have hcasf := bool_eq_false_of_ne_true hcas
      simp only [stepSys, stepReq, if_true, hcasf]
      refine ⟨hXex, hYex, hthird, ?_, hYiff, ?_, ?_, ?_, ?_, hdB⟩
      · intro m hm hmx
        rw [hXiff m hm hmx]
        constructor
        · intro hw
          exact absurd hw hw1
        · intro hw
          simp [ReqWin] at hw
      · rintro ⟨hw, -⟩
        simp [ReqWin] at hw
      · intro _
        exact hwB
      · intro hl
        exact absurd (hLB hl) hw1
      · intro hd
        simp at hd
  | p2 =>
    have hw2 : ReqWin ⟨RPC.p2, saved, res⟩ := Or.inl rfl
    simp only [stepSys, stepReq, if_true]
    refine ⟨hXex, hYex, hthird, ?_, hYiff, ?_, ?_, ?_, ?_, hdB⟩
    · intro m hm hmx
      rw [hXiff m hm hmx]
      constructor
      · intro _
        exact Or.inr (Or.inl rfl)
      · intro _
        exact hw2
    · rintro ⟨-, hwB⟩
      exact hnotboth ⟨hw2, hwB⟩
    · intro hl
      simp [ReqLose] at hl
    · intro _
      exact Or.inr (Or.inl rfl)
    · intro hd
      simp at hd
  | p2b =>
    have hw2 : ReqWin ⟨RPC.p2b, saved, res⟩ := Or.inr (Or.inl rfl)
    have hwd : ReqWin ⟨RPC.pDone, saved, some Outcome.success⟩ :=
      Or.inr (Or.inr ⟨rfl, rfl⟩)
    simp only [stepSys, stepReq, if_true]
    have hpres : ∀ m : Member,
        ((if setApprovalDates c R saved ≠ [] then
          applyUpdatesTo c db X (setApprovalDates c R saved) else db) =
          db) ∨ True := fun _ => Or.inr trivial
    set db2 := (if setApprovalDates c R saved ≠ [] then
      applyUpdatesTo c db X (setApprovalDates c R saved) else db) with hdb2
    have hmem2 : ∀ m' ∈ db2, ∃ m ∈ db, m'.id = m.id ∧ m'.status = m.status := by
      intro m' hm'
      rw [hdb2] at hm'
      split at hm'
      · obtain ⟨m, hm, rfl⟩ := List.mem_map.mp hm'
        by_cases hx : m.id = X
        · refine ⟨m, hm, ?_, ?_⟩ <;> simp [hx, foldl_applyUpdate_id,
            foldl_applyUpdate_status _ _ _
              (setApprovalDates_no_statusU c R saved)]
        · refine ⟨m, hm, ?_, ?_⟩ <;> simp [hx]
      · exact ⟨m', hm', rfl, rfl⟩
    have hmem2' : ∀ m ∈ db, ∃ m' ∈ db2, m'.id = m.id ∧ m'.status = m.status := by
      intro m hm
      rw [hdb2]
      split
      · refine ⟨(if m.id = X then
          (setApprovalDates c R saved).foldl (applyUpdate c) m else m),
          List.mem_map.mpr ⟨m, hm, rfl⟩, ?_, ?_⟩ <;>
          by_cases hx : m.id = X <;>
          simp [hx, foldl_applyUpdate_id, foldl_applyUpdate_status _ _ _
            (setApprovalDates_no_statusU c R saved)]
      · exact ⟨m, hm, rfl, rfl⟩
    refine ⟨?_, ?_, ?_, ?_, ?_, ?_, ?_, ?_, ?_, hdB⟩
    · obtain ⟨m, hm, hmx⟩ := hXex
      obtain ⟨m', hm', hid', -⟩ := hmem2' m hm
      exact ⟨m', hm', hid'.trans hmx⟩
    · obtain ⟨m, hm, hmy⟩ := hYex
      obtain ⟨m', hm', hid', -⟩ := hmem2' m hm
      exact ⟨m', hm', hid'.trans hmy⟩
    · intro m' hm' h1 h2
      obtain ⟨m, hm, hid', hst⟩ := hmem2 m' hm'
      rw [hst]
      exact hthird m hm (hid' ▸ h1) (hid' ▸ h2)
    · intro m' hm' hmx
      obtain ⟨m, hm, hid', hst⟩ := hmem2 m' hm'
      rw [hst]
      rw [hXiff m hm (hid'.symm.trans hmx)]
      constructor
      · intro _
        exact hwd
      · intro _
        exact hw2
    · intro m' hm' hmy
      obtain ⟨m, hm, hid', hst⟩ := hmem2 m' hm'
      rw [hst]
      exact hYiff m hm (hid'.symm.trans hmy)
    · rintro ⟨-, hwB⟩
      exact hnotboth ⟨hw2, hwB⟩
    · intro hl
      simp [ReqLose, Outcome.isConflict] at hl
    · intro _
      exact hwd
    · intro _
      exact Or.inl hwd
  | p3 =>
    have hl3 : ReqLose ⟨RPC.p3, saved, res⟩ := Or.inl rfl
    have hwB : ReqWin rb := hLA hl3
    have hnwA : ¬ ReqWin ⟨RPC.p3, saved, res⟩ := by simp [ReqWin]
    have hfind : ∃ e, db.find? (fun m => m.status = R && m.id ≠ X) = some e := by
      have hs : (db.find? (fun m => m.status = R && m.id ≠ X)).isSome := by
        rw [List.find?_isSome]
        obtain ⟨mY, hmY, hmYid⟩ := hYex
        refine ⟨mY, hmY, ?_⟩
        have : mY.status = R := (hYiff mY hmY hmYid).mpr hwB
        simp [this, hmYid, hXY.symm]
      exact Option.isSome_iff_exists.mp hs
    obtain ⟨e, he⟩ := hfind
    simp only [stepSys, stepReq, if_true, he]
    have hld : ReqLose ⟨RPC.pDone, saved,
        some (Outcome.conflict e.firstName e.lastName)⟩ :=
      Or.inr ⟨rfl, rfl⟩
    have hnwd : ¬ ReqWin ⟨RPC.pDone, saved,
        some (Outcome.conflict e.firstName e.lastName)⟩ := by
      simp [ReqWin]
    refine ⟨hXex, hYex, hthird, ?_, hYiff, ?_, ?_, ?_, ?_, hdB⟩
    · intro m hm hmx
      rw [hXiff m hm hmx]
      constructor
      · intro hw
        exact absurd hw hnwA
      · intro hw
        exact absurd hw hnwd
    · rintro ⟨hw, -⟩
      exact hnwd hw
    · intro _
      exact hwB
    · intro hl
      exact absurd (hLB hl) hnwA
    · intro _
      exact Or.inr hld
  | pDone =>
    simp only [stepSys, stepReq, if_true]
    exact ⟨hXex, hYex, hthird, hXiff, hYiff, hnotboth, hLA, hLB, hdA, hdB⟩

theorem stepSys_false_eq (c : Clock) (R : String) (X Y : Nat) (s : Sys) :
    stepSys c R X Y s false =
      { db := (stepSys c R Y X ⟨s.db, s.hist, s.rb, s.ra⟩ true).db,
        hist := (stepSys c R Y X ⟨s.db, s.hist, s.rb, s.ra⟩ true).hist,
        ra := (stepSys c R Y X ⟨s.db, s.hist, s.rb, s.ra⟩ true).rb,
        rb := (stepSys c R Y X ⟨s.db, s.hist, s.rb, s.ra⟩ true).ra } := by
  obtain ⟨db, hist, ra, rb⟩ := s
  cases hsr : stepReq c R Y db hist rb with
  | mk db' p =>
    obtain ⟨hist', rb'⟩ := p
    simp [stepSys, hsr]

theorem stepB_inv (c : Clock) (R : String) (X Y : Nat) (hXY : X ≠ Y)
    (s : Sys) (h : SysInv R X Y s) : SysInv R X Y (stepSys c R X Y s false) := by
  have h2 := stepA_inv c R Y X (fun he => hXY he.symm)
    ⟨s.db, s.hist, s.rb, s.ra⟩ (sysInv_swap R X Y s h)
  have h3 := sysInv_swap R Y X _ h2
  rw [stepSys_false_eq]
  exact h3

theorem foldl_stepSys_inv (c : Clock) (R : String) (X Y : Nat)
    (hXY : X ≠ Y) (sched : List Bool) (s : Sys) (h : SysInv R X Y s) :
    SysInv R X Y (sched.foldl (stepSys c R X Y) s) := by
  induction sched generalizing s with
  | nil => exact h
  | cons ch t ih =>
    cases ch
    · exact ih _ (stepB_inv c R X Y hXY s h)
    · exact ih _ (stepA_inv c R X Y hXY s h)

/-- **C2**: Two concurrent `updateMember` requests assigning the same unique
bureau role `R` to two different existing members, interleaved at storage
granularity, always end with exactly one success and one Conflict — never
both succeeding — because the uniqueness check is the single conditional
`UPDATE ... WHERE id = ? AND NOT EXISTS(...)` evaluated atomically by the
storage layer, not a read-then-write sequence. -/
theorem c2_concurrent_assignment_exclusive (c : Clock) (R : String)
    (X Y : Nat) (db : List Member) (sched : List Bool)
    (hXY : X ≠ Y) (hR : R ∈ BUREAU_POSITIONS)
    (hX : ∃ m ∈ db, m.id = X) (hY : ∃ m ∈ db, m.id = Y)
    (hnoR : ∀ m ∈ db, m.status ≠ R)
    (hfinA : (runSys c R X Y db sched).ra.pc = .pDone)
    (hfinB : (runSys c R X Y db sched).rb.pc = .pDone) :
    ((runSys c R X Y db sched).ra.res = some .success ∧
      ((runSys c R X Y db sched).rb.res.map Outcome.isConflict) = some true) ∨
    (((runSys c R X Y db sched).ra.res.map Outcome.isConflict) = some true ∧
      (runSys c R X Y db sched).rb.res = some .success) := by
  have hinv := foldl_stepSys_inv c R X Y hXY sched (initSys db)
    (sysInv_init R X Y db hX hY hnoR)
  obtain ⟨-, -, -, -, -, hnotboth, hLA, hLB, hda, hdb2⟩ := hinv
  rcases hda hfinA with hwA | hlA
  · left
    constructor
    · rcases hwA with hp | hp | hp
      · exact absurd (hp.symm.trans hfinA) (by decide)
      · exact absurd (hp.symm.trans hfinA) (by decide)
      · exact hp.2
    · rcases hdb2 hfinB with hwB | hlB
      · exact absurd ⟨hwA, hwB⟩ hnotboth
      · rcases hlB with hp | hp
        · exact absurd (hp.symm.trans hfinB) (by decide)
        · exact hp.2
  · right
    have hwB := hLA hlA
    constructor
    · rcases hlA with hp | hp
      · exact absurd (hp.symm.trans hfinA) (by decide)
      · exact hp.2
    · rcases hwB with hp | hp | hp
      · exact absurd (hp.symm.trans hfinB) (by decide)
      · exact absurd (hp.symm.trans hfinB) (by decide)
      · exact hp.2

theorem c2_concurrent_assignment_exclusive_witness :
    ((runSys ⟨5, 9, 2024⟩ "president" 1 2 [mw2X, mw2Y]
        [true, true, true, true, false, false, false]).ra.res = some .success ∧
      ((runSys ⟨5, 9, 2024⟩ "president" 1 2 [mw2X, mw2Y]
        [true, true, true, true, false, false, false]).rb.res.map
          Outcome.isConflict) = some true) ∨
    (((runSys ⟨5, 9, 2024⟩ "president" 1 2 [mw2X, mw2Y]
        [true, true, true, true, false, false, false]).ra.res.map
          Outcome.isConflict) = some true ∧
      (runSys ⟨5, 9, 2024⟩ "president" 1 2 [mw2X, mw2Y]
        [true, true, true, true, false, false, false]).rb.res = some .success) :=
  c2_concurrent_assignment_exclusive ⟨5, 9, 2024⟩ "president" 1 2 [mw2X, mw2Y]
    [true, true, true, true, false, false, false] (by decide) (by decide)
    (by decide) (by decide) (by decide) (by decide) (by decide)

theorem c3_self_reassignment_no_conflict_witness :
    (updateMember ⟨9, 9, 2024⟩ [mw3] [] 1
        { status := some "treasurer",
          lastName := some "New" }).outcome.isConflict = false ∧
    (updateMember ⟨9, 9, 2024⟩ [mw3] [] 1
        { status := some "treasurer", lastName := some "New" }).outcome =
      .success := by
  have h := c3_self_reassignment_no_conflict ⟨9, 9, 2024⟩ [mw3] [] mw3
    "treasurer" { status := some "treasurer", lastName := some "New" }
    (by decide) (by decide) (by decide) (by decide) rfl
  exact ⟨h.1, h.2 rfl rfl⟩

theorem c4_approval_dates_characterization_witness :
    c4res.approvedAt = some 100 ∧ c4res.expiresAt = some "2025-08-31" := by
  have h := c4_approval_dates_characterization ⟨100, 9, 2024⟩ [mw4] [] mw4 bw4
    (by decide) (by decide) (by decide) c4res (by decide) (by decide)
  exact ⟨h.1.trans (by decide), h.2.trans (by decide)⟩

/-- Counterexample to C4 as frozen, on both counts.  First, a successful
call that moves the status from `pending` into the active-like set
(`treasurer`) yet writes NO approval or expiry date, because the body also
edits `firstName`, which makes `handleStatusChange` skip `setApprovalDates`
for a bureau status.  Second, the claim's "any bureau role" includes
`honorary_president`, but a successful `pending → honorary_president` update
also writes NO approval or expiry date: the code's `activeStatuses` set
excludes `honorary_president`. -/
theorem c4_approval_dates_counterexample :
    ((updateMember ⟨100, 9, 2024⟩ [mw4] [] 1
        { status := some "treasurer", firstName := some "X" }).outcome =
      .success ∧
    (updateMember ⟨100, 9, 2024⟩ [mw4] [] 1
        { status := some "treasurer", firstName := some "X" }).db.map
        (fun m => (m.status, m.approvedAt, m.expiresAt)) =
      [("treasurer", none, none)]) ∧
    ((updateMember ⟨100, 9, 2024⟩ [mw4] [] 1
        { status := some "honorary_president" }).outcome = .success ∧
    (updateMember ⟨100, 9, 2024⟩ [mw4] [] 1
        { status := some "honorary_president" }).db.map
        (fun m => (m.status, m.approvedAt, m.expiresAt)) =
      [("honorary_president", none, none)]) := by decide

/-! ### C7: bureau-role checks of the CSV import -/

/-- Counterexample to C7 as frozen: two rows with the SAME email both
claiming `secretary` — the spec's "already claimed by a different email"
condition would accept the second row, but the in-import check of
`validateImportRow` ignores the email, so the second row is rejected with a
row-level error and skipped. -/
theorem c7_bureau_claim_checks_counterexample :
    (importCSV ⟨7, 2, 2025⟩ []
        "Prénom,Nom,Email,Statut\nJean,Dupont,a@b.cc,Secrétaire\nJean,Dupont,a@b.cc,Secrétaire").state.stats.errors =
      ["Row 3: Role Secrétaire already assigned in this import"] ∧
    (importCSV ⟨7, 2, 2025⟩ []
        "Prénom,Nom,Email,Statut\nJean,Dupont,a@b.cc,Secrétaire\nJean,Dupont,a@b.cc,Secrétaire").state.stats.skipped =
      1 := by decide

/-- **C7 (amended)**: For every import row whose mapped status is a unique
bureau role (and which passes the name/email checks), `validateImportRow`
checks the in-import claim map first and the pre-loaded holder map second:
any second in-import claim of the role is rejected with a row-level error
and skipped, regardless of the claiming email; a storage holder with a
different email is rejected with an error naming that holder; otherwise the
claim is recorded in the claim map. -/
theorem c7_bureau_claim_checks (m : RowMember) (rowIndex : Nat)
    (bim : List (String × String)) (bmap : String → Option Member)
    (stats : ImportStats)
    (hname : (optFalsy m.firstName || optFalsy m.lastName ||
      optFalsy m.email) = false)
    (hemail : isValidEmail ((m.email).getD "") = true)
    (hbur : m.status ∈ BUREAU_POSITIONS) :
    ((bim.lookup m.status).isSome = true →
      validateImportRow m rowIndex bim bmap stats =
        (false, bim, { stats with
          errors := stats.errors ++ ["Row " ++ Nat.repr rowIndex ++ ": Role " ++
            STATUS_LABELS m.status ++ " already assigned in this import"],
          skipped := stats.skipped + 1 })) ∧
    (bim.lookup m.status = none →
      ∀ ex, bmap m.status = some ex → ex.email ≠ (m.email).getD "" →
      validateImportRow m rowIndex bim bmap stats =
        (false, bim, { stats with
          errors := stats.errors ++ ["Row " ++ Nat.repr rowIndex ++ ": Role " ++
            STATUS_LABELS m.status ++ " already held by " ++
            ex.firstName ++ " " ++ ex.lastName],
          skipped := stats.skipped + 1 })) ∧
    (bim.lookup m.status = none →
      (∀ ex, bmap m.status = some ex → ex.email = (m.email).getD "") →
      validateImportRow m rowIndex bim bmap stats =
        (true, (m.status, (m.email).getD "") :: bim, stats)) := by
  unfold validateImportRow
  rw [hname, hemail]
  simp only [Bool.false_eq_true, if_false, Bool.not_true, Bool.false_eq_true,
    if_false]
  rw [if_pos (by simpa using hbur)]
  refine ⟨?_, ?_, ?_⟩
  · intro h
    rw [if_pos h]
  · intro hnone ex hex hne
    rw [if_neg (by rw [hnone]; simp), hex]
    dsimp only
    rw [if_pos hne]
  · intro hnone hsame
    rw [if_neg (by rw [hnone]; simp)]
    cases hex : bmap m.status with
    | none => rfl
    | some ex =>
      dsimp only
      rw [if_neg (by simpa using hsame ex hex)]

theorem c7_bureau_claim_checks_witness :
    validateImportRow mw7 3 [("secretary", "a@b.cc")] (fun _ => none) {} =
      (false, [("secretary", "a@b.cc")],
        { errors := ["Row 3: Role Secrétaire already assigned in this import"],
          skipped := 1 }) := by
  have h := (c7_bureau_claim_checks mw7 3 [("secretary", "a@b.cc")]
    (fun _ => none) {} (by decide) (by decide) (by decide)).1 (by decide)
  exact h.trans (by decide)

/-! ### C8: update path of the CSV import (merge semantics) -/

/-- Counterexample to C8 as frozen, on two counts.  First, re-importing an
existing email with the phone column present but blank ERASES the stored
phone number (the trimmed empty cell is bound as `''`, and
`COALESCE('', phone)` is `''`, not `NULL`), while the spec requires it to be
preserved.  Second, the stored enrollment track (`"T"` in the fixture) is
NEVER preserved: a CSV without a track column binds `'Autre'`
(`extractMemberFromRow` fills it in), and `COALESCE('Autre',
enrollment_track)` rewrites the stored track to `"Autre"` — the same import
that preserves the omitted phone column rewrites the track. -/
theorem c8_update_merge_semantics_counterexample :
    (importCSV ⟨7, 2, 2025⟩ [mw8mem]
        "Prénom,Nom,Email,Téléphone\nJean,Dupont,a@b.cc,").state.db.map
      (fun m => m.phone) = [some ""] ∧
    (importCSV ⟨7, 2, 2025⟩ [mw8mem]
        "Prénom,Nom,Email,Téléphone\nJean,Dupont,a@b.cc,").state.stats.updated =
      1 ∧
    (importCSV ⟨7, 2, 2025⟩ [mw8mem]
        "Prénom,Nom,Email\nJean,Dupont,a@b.cc").state.db.map
      (fun m => m.phone) = [some "0612345678"] ∧
    (importCSV ⟨7, 2, 2025⟩ [mw8mem]
        "Prénom,Nom,Email\nJean,Dupont,a@b.cc").state.db.map
      (fun m => m.enrollmentTrack) = ["Autre"] := by decide

/-- **C8 (amended)**: For every import row whose normalized email matches an
existing member (and whose bound cells are well-defined), the UPDATE path
rewrites name and status, leaves every other row unchanged, and merges the
optional columns as follows: a phone, student-id or enrollment-number column
ABSENT from the CSV keeps the stored value, while a column present in the
CSV overwrites it with the trimmed cell value — including the empty string
when the cell is blank.  The enrollment track is the exception: a CSV
without a track column yields the cell `'Autre'` (second conjunct), which
then overwrites the stored track like any present cell, so the stored track
is never preserved.  The `updated` counter is incremented by the row loop. -/
theorem c8_update_merge_semantics :
    (∀ (c : Clock) (db : List Member) (m : RowMember) (existing : Member),
      db.find? (fun mem => mem.email = (m.email).getD "") = some existing →
      m.phone ≠ .missing → m.studentId ≠ .missing →
      m.enrollmentNumber ≠ .missing → m.enrollmentTrack ≠ .missing →
      ∃ db2, importOrUpdateMember c db m = .updatedRow db2 ∧
        db2.length = db.length ∧
        (∀ mem ∈ db, mem.id ≠ existing.id → mem ∈ db2) ∧
        (∀ mem ∈ db, mem.id = existing.id →
          ∃ mem2 ∈ db2,
            mem2.firstName = (m.firstName).getD "" ∧
            mem2.lastName = (m.lastName).getD "" ∧
            mem2.status = m.status ∧
            mem2.email = mem.email ∧
            (m.phone = Cell.absent → mem2.phone = mem.phone) ∧
            (∀ s, m.phone = Cell.val s → mem2.phone = some s) ∧
            (m.studentId = Cell.absent → mem2.studentId = mem.studentId) ∧
            (∀ s, m.studentId = Cell.val s → mem2.studentId = some s) ∧
            (m.enrollmentNumber = Cell.absent →
              mem2.enrollmentNumber = mem.enrollmentNumber) ∧
            (∀ s, m.enrollmentNumber = Cell.val s →
              mem2.enrollmentNumber = some s) ∧
            (m.enrollmentTrack = Cell.absent →
              mem2.enrollmentTrack = mem.enrollmentTrack) ∧
            (∀ s, m.enrollmentTrack = Cell.val s →
              mem2.enrollmentTrack = s))) ∧
    (∀ (values : List String) (hm : HeaderMap),
      hm.enrollmentTrack = none →
      (extractMemberFromRow values hm).enrollmentTrack = Cell.val "Autre") ∧
    (∀ (c : Clock) (bmap : String → Option Member) (hm : HeaderMap)
        (st : ImportState) (i : Nat) (line : String)
        (bim2 : List (String × String)) (stats2 : ImportStats)
        (db2 : List Member),
      jsTrim line ≠ "" →
      validateImportRow (extractMemberFromRow (parseCSVLine (jsTrim line)) hm)
        (i + 2) st.bim bmap st.stats = (true, bim2, stats2) →
      importOrUpdateMember c st.db
        (extractMemberFromRow (parseCSVLine (jsTrim line)) hm) =
        .updatedRow db2 →
      processRow c bmap hm st (i, line) =
        ⟨db2, bim2, { stats2 with updated := stats2.updated + 1 }⟩) := by
  constructor
  · intro c db m existing hfind h1 h2 h3 h4
    have hcond : (m.phone = Cell.missing || m.studentId = Cell.missing ||
        m.enrollmentNumber = Cell.missing ||
        m.enrollmentTrack = Cell.missing) = false := by
      simp [h1, h2, h3, h4]
    refine ⟨db.map (fun mem =>
      if mem.id = existing.id then importUpdatedMember c mem m else mem),
      ?_, by simp, ?_, ?_⟩
    · unfold importOrUpdateMember
      rw [hfind]
      dsimp only
      rw [hcond]
      simp
    · intro mem hmem hne
      refine List.mem_map.mpr ⟨mem, hmem, ?_⟩
      rw [if_neg hne]
    · intro mem hmem heq
      refine ⟨importUpdatedMember c mem m,
        List.mem_map.mpr ⟨mem, hmem, by rw [if_pos heq]⟩,
        rfl, rfl, rfl, rfl, ?_, ?_, ?_, ?_, ?_, ?_, ?_, ?_⟩
      · intro h
        simp [importUpdatedMember, h, cellSql]
      · intro s h
        simp [importUpdatedMember, h, cellSql]
      · intro h
        simp [importUpdatedMember, h, cellSql]
      · intro s h
        simp [importUpdatedMember, h, cellSql]
      · intro h
        simp [importUpdatedMember, h, cellSql]
      · intro s h
        simp [importUpdatedMember, h, cellSql]
      · intro h
        simp [importUpdatedMember, h, cellSql]
      · intro s h
        simp [importUpdatedMember, h, cellSql]
  · constructor
    · intro values hm h
      simp [extractMemberFromRow, h]
    · intro c bmap hm st i line bim2 stats2 db2 hline hval hwrite
      unfold processRow
      dsimp only
      rw [if_neg hline, hval]
      dsimp only
      rw [hwrite]

theorem c8_update_merge_semantics_witness :
    processRow ⟨7, 2, 2025⟩ (fun _ => none) hm8 ⟨[mw8mem], [], {}⟩
      (0, "Jean,Dupont,a@b.cc,") =
    ⟨[importUpdatedMember ⟨7, 2, 2025⟩ mw8mem row8], [], { updated := 1 }⟩ := by
  have h := c8_update_merge_semantics.2.2 ⟨7, 2, 2025⟩ (fun _ => none) hm8
    ⟨[mw8mem], [], {}⟩ 0 "Jean,Dupont,a@b.cc," [] {}
    [importUpdatedMember ⟨7, 2, 2025⟩ mw8mem row8]
    (by decide) (by decide) (by decide)
  exact h.trans (by decide)

/-! ### C9: insert path of the CSV import -/

/-- Counterexample to C9 as frozen: an imported row whose status is
`expired` — NOT in the active-like set — still gets `approved_at = now` and
an expiry date, and a `rejected` row gets `approved_at = now`, while the
spec requires both fields to be set only for active-like statuses and left
null for rejected rows. -/
theorem c9_insert_dates_counterexample :
    (importCSV ⟨7, 2, 2025⟩ []
        "Prénom,Nom,Email,Statut\nJean,Dupont,x@y.zz,Expiré").state.db.map
      (fun m => (m.status, m.approvedAt, m.expiresAt)) =
      [("expired", some 7, some "2025-08-31")] ∧
    (importCSV ⟨7, 2, 2025⟩ []
        "Prénom,Nom,Email,Statut\nJean,Dupont,x@y.zz,Refusé").state.db.map
      (fun m => (m.status, m.approvedAt, m.expiresAt)) =
      [("rejected", some 7, none)] := by decide

/-- **C9 (amended)**: For every import row whose normalized email matches no
existing member (and whose bound cells are well-defined), a new member row is
appended and the `imported` counter is incremented; `approved_at` is null
EXACTLY for `pending` rows (every other status, `rejected` and `expired`
included, gets `approved_at = now`), and `expires_at` is null EXACTLY for
`pending` and `rejected` rows (every other status, `expired` included, gets
the academic-year expiry date) — the active-like set plays no role on this
path. -/
theorem c9_insert_dates :
    (∀ (c : Clock) (db : List Member) (m : RowMember),
      db.find? (fun mem => mem.email = (m.email).getD "") = none →
      m.phone ≠ .missing → m.studentId ≠ .missing →
      m.enrollmentNumber ≠ .missing → m.enrollmentTrack ≠ .missing →
      importOrUpdateMember c db m =
        .insertedRow (db ++ [importInsertedMember c db m]) ∧
      (importInsertedMember c db m).email = (m.email).getD "" ∧
      (importInsertedMember c db m).status = m.status ∧
      ((importInsertedMember c db m).approvedAt = none ↔
        m.status = "pending") ∧
      ((importInsertedMember c db m).expiresAt = none ↔
        (m.status = "pending" ∨ m.status = "rejected")) ∧
      (m.status ≠ "pending" →
        (importInsertedMember c db m).approvedAt = some c.now) ∧
      (m.status ≠ "pending" → m.status ≠ "rejected" →
        (importInsertedMember c db m).expiresAt = some (expiryString c))) ∧
    (∀ (c : Clock) (bmap : String → Option Member) (hm : HeaderMap)
        (st : ImportState) (i : Nat) (line : String)
        (bim2 : List (String × String)) (stats2 : ImportStats)
        (db2 : List Member),
      jsTrim line ≠ "" →
      validateImportRow (extractMemberFromRow (parseCSVLine (jsTrim line)) hm)
        (i + 2) st.bim bmap st.stats = (true, bim2, stats2) →
      importOrUpdateMember c st.db
        (extractMemberFromRow (parseCSVLine (jsTrim line)) hm) =
        .insertedRow db2 →
      processRow c bmap hm st (i, line) =
        ⟨db2, bim2, { stats2 with imported := stats2.imported + 1 }⟩) := by
  constructor
  · intro c db m hfind h1 h2 h3 h4
    have hcond : (m.phone = Cell.missing || m.studentId = Cell.missing ||
        m.enrollmentNumber = Cell.missing ||
        m.enrollmentTrack = Cell.missing) = false := by
      simp [h1, h2, h3, h4]
    refine ⟨?_, rfl, rfl, ?_, ?_, ?_, ?_⟩
    · unfold importOrUpdateMember
      rw [hfind]
      dsimp only
      rw [hcond]
      simp
    · by_cases hp : m.status = "pending" <;>
        simp [importInsertedMember, hp]
    · by_cases hp : m.status = "pending"
      · simp [importInsertedMember, hp]
      · by_cases hr : m.status = "rejected" <;>
          simp [importInsertedMember, hp, hr]
    · intro hp
      simp [importInsertedMember, hp]
    · intro hp hr
      simp [importInsertedMember, hp, hr]
  · intro c bmap hm st i line bim2 stats2 db2 hline hval hwrite
    unfold processRow
    dsimp only
    rw [if_neg hline, hval]
    dsimp only
    rw [hwrite]

theorem c9_insert_dates_witness :
    processRow ⟨7, 2, 2025⟩ (fun _ => none) hm9 ⟨[], [], {}⟩
      (0, "Jean,Dupont,x@y.zz,Expiré") =
    ⟨[importInsertedMember ⟨7, 2, 2025⟩ [] row9], [],
      { imported := 1 }⟩ := by
  have h := c9_insert_dates.2 ⟨7, 2, 2025⟩ (fun _ => none) hm9
    ⟨[], [], {}⟩ 0 "Jean,Dupont,x@y.zz,Expiré" [] {}
    [importInsertedMember ⟨7, 2, 2025⟩ [] row9]
    (by decide) (by decide) (by decide)
  exact h.trans (by decide)

/-! ### C6: the email validator against its specification -/

theorem lastIdx_lt (c : Char) :
    ∀ (cs : List Char) (k : Nat), lastIdx c cs = some k → k < cs.length := by
  intro cs
  induction cs with
  | nil => intro k h; cases h
  | cons x xs ih =>
    intro k h
    unfold lastIdx at h
    cases hx : lastIdx c xs with
    | some k2 =>
      rw [hx] at h
      cases h
      have := ih k2 hx
      simp only [List.length_cons]
      omega
    | none =>
      rw [hx] at h
      by_cases hc : x = c
      · rw [if_pos hc] at h
        cases h
        simp
      · rw [if_neg hc] at h
        cases h

theorem jsLastIndexOfAux_eq (c : Char) :
    ∀ (cs : List Char) (n : Nat),
      jsLastIndexOfAux c cs n =
        match lastIdx c cs with
        | some k => ((n + k : Nat) : Int)
        | none => -1 := by
  intro cs
  induction cs with
  | nil => intro n; rfl
  | cons x xs ih =>
    intro n
    simp only [jsLastIndexOfAux, ih (n + 1), lastIdx]
    cases hx : lastIdx c xs with
    | some k =>
      have hge : ((n + 1 + k : Nat) : Int) ≥ 0 := by positivity
      rw [if_pos hge]
      show ((n + 1 + k : Nat) : Int) = ((n + (k + 1) : Nat) : Int)
      omega
    | none =>
      rw [if_neg (by norm_num)]
      by_cases hc : x = c
      · rw [if_pos hc, if_pos hc]
        norm_num
      · rw [if_neg hc, if_neg hc]

theorem lastIdx_append (c : Char) :
    ∀ (as bs : List Char),
      lastIdx c (as ++ bs) =
        match lastIdx c bs with
        | some k => some (as.length + k)
        | none => lastIdx c as := by
  intro as bs
  induction as with
  | nil =>
    cases hb : lastIdx c bs with
    | some k => simp [hb]
    | none => simp [hb, lastIdx]
  | cons a as ih =>
    rw [List.cons_append]
    rw [show lastIdx c (a :: (as ++ bs)) =
      (match lastIdx c (as ++ bs) with
       | some k => some (k + 1)
       | none => if a = c then some 0 else none) from rfl]
    rw [ih]
    cases hb : lastIdx c bs with
    | some k =>
      show some (as.length + k + 1) = some ((a :: as).length + k)
      have h2 : as.length + k + 1 = (a :: as).length + k := by
        simp only [List.length_cons]
        omega
      rw [h2]
    | none => rfl

theorem jsIndexOfAux_eq (c : Char) :
    ∀ (cs : List Char) (n : Nat),
      jsIndexOfAux c cs n =
        match cs.findIdx? (fun x => x = c) n with
        | some i => (i : Int)
        | none => -1 := by
  intro cs
  induction cs with
  | nil => intro n; rfl
  | cons x xs ih =>
    intro n
    have hstep : (x :: xs).findIdx? (fun x => x = c) n =
        if x = c then some n else xs.findIdx? (fun x => x = c) (n + 1) := by
      by_cases hc : x = c
      · rw [if_pos hc]
        exact if_pos (by simpa using hc)
      · rw [if_neg hc]
        exact if_neg (by simpa using hc)
    simp only [jsIndexOfAux, hstep]
    by_cases hc : x = c
    · rw [if_pos hc, if_pos hc]
    · rw [if_neg hc, if_neg hc, ih (n + 1)]

theorem findIdx?_lt_length (p : Char → Bool) :
    ∀ (cs : List Char) (n i : Nat),
      cs.findIdx? p n = some i → n ≤ i ∧ i < n + cs.length := by
  intro cs
  induction cs with
  | nil => intro n i h; cases h
  | cons x xs ih =>
    intro n i h
    rw [show (x :: xs).findIdx? p n =
      if p x then some n else xs.findIdx? p (n + 1) from rfl] at h
    by_cases hp : p x
    · rw [if_pos hp] at h
      cases h
      simp
    · rw [if_neg hp] at h
      have := ih (n + 1) i h
      simp only [List.length_cons]
      omega

/-- Counterexample to C6 as frozen: `"a@b.c."` has a domain `"b.c."` that
contains a dot neither at the domain's start nor at its end (the interior
one), so the claimed characterization accepts it; the validator rejects it,
because `lastIndexOf('.')` picks the TERMINAL dot. -/
theorem c6_email_validator_counterexample :
    emailClaimSpec "a@b.c." = true ∧ isValidEmail "a@b.c." = false := by
  decide

/-- **C6 (amended)**: The validator accepts `e` iff `e` is non-empty, at
most 254 characters, has a first `@` at a positive index, the domain after
that `@` has its LAST dot neither at the domain's start nor at its end, and
`e` contains no space: `isValidEmail` coincides with `emailAmendedSpec` on
every input. -/
theorem c6_email_validator_characterization :
    ∀ e : String, isValidEmail e = emailAmendedSpec e := by
  intro e
  simp only [isValidEmail, emailAmendedSpec]
  by_cases h0 : e.data.length = 0
  · rw [if_pos (by simp [h0])]
    rw [show (decide (e.data ≠ [])) = false from by
      simp [List.length_eq_zero.mp h0]]
    simp
  · by_cases h254 : e.data.length > 254
    · rw [if_pos (by
        simp only [Bool.or_eq_true, decide_eq_true_eq]
        omega)]
      rw [show (decide (e.data.length ≤ 254)) = false from by
        simp only [decide_eq_false_iff_not]
        omega]
      simp
    · rw [if_neg (by
        simp only [Bool.or_eq_true, decide_eq_true_eq, not_or]
        exact ⟨h0, h254⟩)]
      rw [show (decide (e.data ≠ [])) = true from by
        simp only [ne_eq, decide_eq_true_eq]
        intro hnil
        exact h0 (by simp [hnil])]
      rw [show (decide (e.data.length ≤ 254)) = true from by
        simp only [decide_eq_true_eq]
        omega]
      simp only [Bool.true_and]
      cases hat : e.data.findIdx? (fun x => x = '@') with
      | none =>
        have hidx : jsIndexOf e.data '@' = -1 := by
          rw [jsIndexOf, jsIndexOfAux_eq, hat]
        rw [hidx]
        simp
      | some i =>
        dsimp only
        have hi := (findIdx?_lt_length (fun x => x = '@') e.data 0 i hat).2
        simp only [Nat.zero_add] at hi
        have hidx : jsIndexOf e.data '@' = (i : Int) := by
          rw [jsIndexOf, jsIndexOfAux_eq, hat]
        rw [hidx]
        have hsplit := lastIdx_append '.' (e.data.take (i + 1))
          (e.data.drop (i + 1))
        rw [List.take_append_drop] at hsplit
        have hlt : (e.data.take (i + 1)).length = i + 1 := by
          rw [List.length_take]
          omega
        have hdl : (e.data.drop (i + 1)).length = e.data.length - (i + 1) :=
          List.length_drop _ _
        have hA : decide ((i : Int) > 0) = decide (0 < i) :=
          decide_eq_decide.mpr (by omega)
        cases hdom : lastIdx '.' (e.data.drop (i + 1)) with
        | none =>
          have hdomIdx : jsLastIndexOf (e.data.drop (i + 1)) '.' = -1 := by
            rw [jsLastIndexOf, jsLastIndexOfAux_eq, hdom]
          have hB : decide (jsLastIndexOf e.data '.' > (i : Int) + 1) =
              false := by
            rw [jsLastIndexOf, jsLastIndexOfAux_eq, hsplit, hdom]
            cases htake : lastIdx '.' (e.data.take (i + 1)) with
            | none =>
              simp only [decide_eq_false_iff_not, not_lt]
              show (-1 : Int) ≤ (i : Int) + 1
              omega
            | some k =>
              have hk := lastIdx_lt '.' _ k htake
              rw [hlt] at hk
              simp only [decide_eq_false_iff_not, not_lt]
              show ((0 + k : Nat) : Int) ≤ (i : Int) + 1
              omega
          rw [hdomIdx, hB]
          simp
        | some k =>
          have hk := lastIdx_lt '.' _ k hdom
          rw [hdl] at hk
          have hdomIdx : jsLastIndexOf (e.data.drop (i + 1)) '.' =
              (k : Int) := by
            rw [jsLastIndexOf, jsLastIndexOfAux_eq, hdom]
            show ((0 + k : Nat) : Int) = (k : Int)
            omega
          have hcsIdx : jsLastIndexOf e.data '.' =
              ((i + 1 + k : Nat) : Int) := by
            rw [jsLastIndexOf, jsLastIndexOfAux_eq, hsplit, hdom]
            show ((0 + ((e.data.take (i + 1)).length + k) : Nat) : Int) = _
            rw [hlt]
            omega
          rw [hcsIdx, hdomIdx]
          have hB1 : decide (((i + 1 + k : Nat) : Int) > (i : Int) + 1) =
              decide (0 < (k : Int)) :=
            decide_eq_decide.mpr (by push_cast; omega)
          have hB2 : decide (((i + 1 + k : Nat) : Int) <
              (e.data.length : Int) - 1) =
              decide ((k : Int) + 1 <
                ((e.data.drop (i + 1)).length : Int)) :=
            decide_eq_decide.mpr (by rw [hdl]; push_cast; omega)
          rw [hA, hB1, hB2]
          simp only [Bool.and_assoc]
